import Mathlib

/-!
# Publisher operation editor and storefront detail page

A shallow embedding of the three source files over a small model of JavaScript
values, followed by the properties proved about them:

* `Operation.jsx`, the reducer-driven operation editor of the publisher;
* `AddOperation.jsx`, the add-operation form of the publisher;
* `index.js`, the callbacks of the storefront API detail page.

JavaScript objects are association lists in insertion order.  A property write
replaces the value of an existing key in place and appends a new key at the end,
as the language does.  The values are the JSON-like data the component handles:
an array is an object keyed by its indices, and functions are not modelled.
-/

/-! ## JavaScript values -/

mutual
/-- A JavaScript value of the kind that flows through the operation editor. -/
inductive JsValue where
  | undefined
  | null
  | bool (b : Bool)
  | num (n : Int)
  | str (s : String)
  | obj (props : JsProps)
  deriving DecidableEq
/-- The own properties of an object, in insertion order. -/
inductive JsProps where
  | nil
  | cons (key : String) (value : JsValue) (rest : JsProps)
  deriving DecidableEq
end

/-- The exception a property access on `undefined`, `null` or, when writing in
strict mode, on a primitive raises. -/
inductive JsError where
  | typeError
  deriving DecidableEq

/-- Value of the own property `key`; `undefined` when there is none. -/
def JsProps.lookup : JsProps → String → JsValue
  | .nil, _ => .undefined
  | .cons k v rest, key => if k = key then v else rest.lookup key

/-- Own properties after `o[key] = val`. -/
def JsProps.assign : JsProps → String → JsValue → JsProps
  | .nil, key, val => .cons key val .nil
  | .cons k v rest, key, val =>
    if k = key then .cons k val rest else .cons k v (rest.assign key val)

/-- Property read `o[key]`, own properties only; the component reads the keys
`spec`, `target` and `verb`. -/
def JsValue.getProp : JsValue → String → Except JsError JsValue
  | .obj props, key => .ok (props.lookup key)
  | .undefined, _ => .error .typeError
  | .null, _ => .error .typeError
  | _, _ => .ok .undefined

/-- Property write `o[key] = val` in strict mode (the component is an ES module);
the result is the object after the write. -/
def JsValue.setProp : JsValue → String → JsValue → Except JsError JsValue
  | .obj props, key, val => .ok (.obj (props.assign key val))
  | _, _, _ => .error .typeError

/-- Truthiness, as `cond ? a : b` tests it. -/
def JsValue.truthy : JsValue → Bool
  | .undefined => false
  | .null => false
  | .bool b => b
  | .num n => n != 0
  | .str s => s != ""
  | .obj _ => true

mutual
/-- The `cloneDeep` of lodash on plain data: a structural copy. -/
def cloneDeep : JsValue → JsValue
  | .obj props => .obj (cloneDeepProps props)
  | v => v
/-- Copy of each own property, values cloned recursively. -/
def cloneDeepProps : JsProps → JsProps
  | .nil => .nil
  | .cons k v rest => .cons k (cloneDeep v) (cloneDeepProps rest)
end

/-! ## The reducer of `Operation.jsx` -/

/-- The `event` member of a reducer action: the text fields dispatch
`{ operation, value }`, the switch and the update dispatches `{ value }`. -/
structure OperationEvent where
  operation : JsValue
  value : JsValue
  deriving DecidableEq

/-- The object handed to `operationActionsDispatcher`. -/
structure OperationAction where
  action : String
  event : OperationEvent
  deriving DecidableEq

/-- What one run of `operationReducer` does: the arguments of its calls to
`setIsNotSaved`, in order, and the state it returns (or the exception raised). -/
structure ReducerRun where
  setIsNotSaved : List Bool
  returned : Except JsError JsValue

/-- The `'Any'` or `'None'` string an auth toggle writes. -/
def authTypeOf (value : JsValue) : JsValue :=
  if value.truthy then .str "Any" else .str "None"

/-- The function `operationReducer` of `Operation.jsx`. -/
def operationReducer (operationState : JsValue) (operationAction : OperationAction) :
    ReducerRun :=
  let action := operationAction.action
  let event := operationAction.event
  let nextState := cloneDeep operationState
  let calls : List Bool := if action ≠ "update" then [true] else []
  let returned : Except JsError JsValue :=
    if action = "update" then
      .ok event.value
    else if action = "summary" ∨ action = "description" then do
      -- nextState.spec[action] = event.value
      let spec ← nextState.getProp "spec"
      let spec ← spec.setProp action event.value
      nextState.setProp "spec" spec
    else if action = "authType" then do
      -- nextState[action] = event.value ? 'Any' : 'None'
      let nextState ← nextState.setProp action (authTypeOf event.value)
      -- nextState.spec['x-auth-type'] = event.value ? 'Any' : 'None'
      let spec ← nextState.getProp "spec"
      let spec ← spec.setProp "x-auth-type" (authTypeOf event.value)
      nextState.setProp "spec" spec
    else
      .ok operationState
  { setIsNotSaved := calls, returned := returned }

/-! ## The `Operation` component

The hooks of the component (`useState`, `useReducer`, `useEffect`) and its event
handlers, as a deterministic step function.  One step is one event (a user input,
a new `operation` prop from the parent, the settling of the promise returned by
`updateOpenAPI`) together with the renders and effect runs it causes, up to the
point where the component is at rest again.  The JSX the component returns is not
modelled. -/

/-- String conversion inside a template literal. -/
def JsValue.toStr : JsValue → String
  | .undefined => "undefined"
  | .null => "null"
  | .bool true => "true"
  | .bool false => "false"
  | .num n => toString n
  | .str s => s
  | .obj _ => "[object Object]"

/-- One mounted `Operation` component and the record of what it did to its
surroundings. -/
structure Editor where
  /-- The prop `operation`, named `initOperation` in the component. -/
  initOperation : JsValue
  /-- The reducer state `operation`. -/
  operation : JsValue
  isSaving : Bool
  isNotSaved : Bool
  isCollapsed : Bool
  /-- Arguments of the calls made to `updateOpenAPI`, oldest first. -/
  updateOpenAPICalls : List (String × JsValue)
  /-- Payloads of the promises returned by `updateOpenAPI` that have not settled,
  oldest first. -/
  pending : List JsValue
  /-- Messages passed to `Alert.warning`, oldest first. -/
  warnings : List String
  /-- History: the value the accepting effect dispatched last. -/
  lastAccepted : JsValue
  /-- History: the payload of the save that resolved last. -/
  lastSaved : Option JsValue
  deriving DecidableEq

/-- The dispatcher `operationActionsDispatcher`: run the reducer on the current
state, keep what it returns and apply its `setIsNotSaved` calls.  The result is
`none` when the reducer throws. -/
def operationActionsDispatcher (st : Editor) (operationAction : OperationAction) :
    Option Editor :=
  let run := operationReducer st.operation operationAction
  match run.returned with
  | .error _ => none
  | .ok next =>
    some { st with
      operation := next
      isNotSaved := run.setIsNotSaved.foldl (fun _ b => b) st.isNotSaved }

/-- Body of the `useEffect` with dependencies `[initOperation, isNotSaved]`. -/
def acceptExternal (st : Editor) : Option Editor :=
  if !st.isNotSaved then
    (operationActionsDispatcher st
      { action := "update", event := { operation := .undefined, value := st.initOperation } }).map
      fun st2 => { st2 with lastAccepted := st.initOperation }
  else
    some st

/-- The effect phase after a render: the effect body runs when one of its two
dependencies changed, `initOperation` (a new object from the parent) or
`isNotSaved` (compared with its value at the previous render). -/
def afterRender (propChanged : Bool) (prevIsNotSaved : Bool) (st : Editor) : Option Editor :=
  if propChanged || (prevIsNotSaved != st.isNotSaved) then acceptExternal st else some st

/-- First render of the component and the effect run that follows it. -/
def mount (initOperation : JsValue) : Option Editor :=
  acceptExternal
    { initOperation := initOperation
      operation := cloneDeep initOperation
      isSaving := false
      isNotSaved := false
      isCollapsed := false
      updateOpenAPICalls := []
      pending := []
      warnings := []
      lastAccepted := initOperation
      lastSaved := none }

/-- The handler `saveChanges`, up to the call of `updateOpenAPI`. -/
def saveChanges (st : Editor) : Editor :=
  { st with
    isSaving := true
    updateOpenAPICalls := st.updateOpenAPICalls ++ [("operation", st.operation)]
    pending := st.pending ++ [st.operation] }

/-- The handler `handleCollapse`. -/
def handleCollapse (st : Editor) (expanded : Bool) : Option Editor :=
  if !expanded && st.isNotSaved then
    match st.operation.getProp "target", st.operation.getProp "verb" with
    | .ok target, .ok verb =>
      some { st with
        warnings := st.warnings ++
          ["Unsaved changes detected in " ++ target.toStr ++ " " ++ verb.toStr]
        isCollapsed := expanded }
    | _, _ => none
  else
    some { st with isCollapsed := expanded }

/-- What can happen to a mounted component. -/
inductive EditorEvent where
  /-- Input in the Description text field. -/
  | changeDescription (value : String)
  /-- Input in the Summary text field. -/
  | changeSummary (value : String)
  /-- Toggle of the security switch. -/
  | switchAuth (checked : Bool)
  /-- The parent renders the component with a new `operation` prop. -/
  | propChange (operation : JsValue)
  /-- The expansion panel reports a change. -/
  | panelChange (expanded : Bool)
  /-- Click on Save. -/
  | clickSave
  /-- The oldest outstanding `updateOpenAPI` promise resolves. -/
  | saveResolved
  /-- The oldest outstanding `updateOpenAPI` promise rejects. -/
  | saveRejected
  /-- Click on Reset. -/
  | clickReset
  deriving DecidableEq

/-- One step of the component.  `none`: the event cannot happen in this state (the
Save button is disabled, no promise is outstanding) or a handler threw. -/
def step (st : Editor) : EditorEvent → Option Editor
  | .changeDescription value =>
    (operationActionsDispatcher st
      { action := "description", event := { operation := st.operation, value := .str value } }).bind
      (afterRender false st.isNotSaved)
  | .changeSummary value =>
    (operationActionsDispatcher st
      { action := "summary", event := { operation := st.operation, value := .str value } }).bind
      (afterRender false st.isNotSaved)
  | .switchAuth checked =>
    (operationActionsDispatcher st
      { action := "authType", event := { operation := .undefined, value := .bool checked } }).bind
      (afterRender false st.isNotSaved)
  | .propChange operation =>
    afterRender true st.isNotSaved { st with initOperation := operation }
  | .panelChange expanded => handleCollapse st expanded
  | .clickSave =>
    -- <Button disabled={isSaving} onClick={saveChanges}>
    if st.isSaving then none else some (saveChanges st)
  | .saveResolved =>
    match st.pending with
    | [] => none
    | payload :: rest =>
      -- .then(() => setIsNotSaved(false))
      (afterRender false st.isNotSaved
        { st with isNotSaved := false, pending := rest, lastSaved := some payload }).map
        -- .finally(() => setIsSaving(false))
        fun st2 => { st2 with isSaving := false }
  | .saveRejected =>
    match st.pending with
    | [] => none
    | _ :: rest =>
      -- .finally(() => setIsSaving(false))
      some { st with isSaving := false, pending := rest }
  | .clickReset =>
    -- operationActionsDispatcher({ action: 'update', event: { value: initOperation } })
    (operationActionsDispatcher st
      { action := "update", event := { operation := .undefined, value := st.initOperation } }).bind
      -- setIsNotSaved(false)
      fun st2 => afterRender false st.isNotSaved { st2 with isNotSaved := false }

/-- Run a sequence of events, oldest first. -/
def run (st : Editor) : List EditorEvent → Option Editor
  | [] => some st
  | ev :: rest => (step st ev).bind fun st2 => run st2 rest

/-- The three events that dispatch an edit action. -/
def EditorEvent.isEdit : EditorEvent → Bool
  | .changeDescription _ => true
  | .changeSummary _ => true
  | .switchAuth _ => true
  | _ => false

/-- The two events that settle a save. -/
def EditorEvent.isSettle : EditorEvent → Bool
  | .saveResolved => true
  | .saveRejected => true
  | _ => false

/-- The operation of the example in the component's description:
a `GET /pets` without auth, summary and description empty. -/
def petsOperation : JsValue :=
  .obj (.cons "verb" (.str "GET") (.cons "target" (.str "/pets")
    (.cons "authType" (.str "None")
      (.cons "spec" (.obj (.cons "summary" (.str "") (.cons "description" (.str "") .nil)))
        .nil))))

/-- The state after the accepting effect dispatched. -/
def Editor.accepted (st : Editor) : Editor :=
  { st with operation := st.initOperation, lastAccepted := st.initOperation }

/-- Mount the component on `initOperation`, then run the events. -/
def runFrom (initOperation : JsValue) (evs : List EditorEvent) : Option Editor :=
  (mount initOperation).bind fun st => run st evs

/-- The example operation with its summary replaced. -/
def petsWithSummary (summary : String) : JsValue :=
  .obj (.cons "verb" (.str "GET") (.cons "target" (.str "/pets")
    (.cons "authType" (.str "None")
      (.cons "spec" (.obj (.cons "summary" (.str summary) (.cons "description" (.str "") .nil)))
        .nil))))

/-- The component right after it mounted on the example operation. -/
def petsMounted : Editor :=
  { initOperation := petsOperation, operation := petsOperation, isSaving := false,
    isNotSaved := false, isCollapsed := false, updateOpenAPICalls := [], pending := [],
    warnings := [], lastAccepted := petsOperation, lastSaved := none }

/-- While the dirty flag is false the snapshot is the prop, and the prop is the
value accepted last. -/
def Editor.cleanMeansAccepted (st : Editor) : Prop :=
  st.isNotSaved = false → st.operation = st.lastAccepted ∧ st.initOperation = st.lastAccepted

/-- The busy indicator and the outstanding promises agree: either the component
is idle and no promise is outstanding, or it is saving and exactly one is. -/
def Editor.oneSaveInFlight (st : Editor) : Prop :=
  (st.isSaving = false ∧ st.pending = []) ∨ (st.isSaving = true ∧ ∃ payload, st.pending = [payload])

/-- While the dirty flag is true the snapshot is an object: an edit is the only way
to set the flag, and an edit that returns returns an object. -/
def Editor.dirtyIsObject (st : Editor) : Prop :=
  st.isNotSaved = true → ∃ ps, st.operation = .obj ps

/-- Whether `key` is an own property. -/
def JsProps.has : JsProps → String → Bool
  | .nil, _ => false
  | .cons k _ rest, key => k == key || rest.has key

/-- Two objects are the same mapping: the same keys, and the same value under each. -/
def JsProps.sameFields (p q : JsProps) : Prop :=
  ∀ k, p.has k = q.has k ∧ p.lookup k = q.lookup k

/-- Two snapshots are the same mapping on the two levels the reducer writes: both
are objects with the same keys, the values under every key other than `spec` are
equal, and the two `spec` objects are the same mapping. -/
def sameSnapshot (a b : JsValue) : Prop :=
  ∃ pa pb sa sb, a = .obj pa ∧ b = .obj pb ∧
    pa.lookup "spec" = .obj sa ∧ pb.lookup "spec" = .obj sb ∧ sa.sameFields sb ∧
    ∀ k, pa.has k = pb.has k ∧ (k ≠ "spec" → pa.lookup k = pb.lookup k)

/-- The snapshot after two actions dispatched one after the other. -/
def reduceTwice (s : JsValue) (first second : OperationAction) : Except JsError JsValue :=
  match (operationReducer s first).returned with
  | .error e => .error e
  | .ok r => (operationReducer r second).returned

/-! ## The add-operation form of `AddOperation.jsx` -/

/-- One mounted `AddOperation` component: its two pieces of state, and the record of
its calls to `updateOpenAPI`. -/
structure AddForm where
  isAdding : Bool
  /-- The state `operation`, always an object: its own properties. -/
  operation : JsProps
  /-- Arguments of the calls made to `updateOpenAPI`, oldest first. -/
  updateOpenAPICalls : List (String × JsValue)
  /-- Payloads of the promises returned by `updateOpenAPI` that have not settled. -/
  pending : List JsValue
  deriving DecidableEq

/-- The component after its first render: `useState(false)` and `useState({})`. -/
def AddForm.initial : AddForm :=
  { isAdding := false, operation := .nil, updateOpenAPICalls := [], pending := [] }

/-- The handler `clearInputs`. -/
def clearInputs (st : AddForm) : AddForm :=
  { st with operation := .cons "target" (.str "") (.cons "verb" .null .nil) }

/-- The handler `addOperation`, up to the call of `updateOpenAPI`. -/
def addOperation (st : AddForm) : AddForm :=
  { st with
    isAdding := true
    updateOpenAPICalls := st.updateOpenAPICalls ++ [("add", .obj st.operation)]
    pending := st.pending ++ [.obj st.operation] }

/-- What can happen to the add-operation form. -/
inductive AddFormEvent where
  /-- Input in the verb select (`name` is `verb`) or in the URI pattern field (`name`
  is `target`). -/
  | inputChange (name : String) (value : String)
  /-- Click on the add button. -/
  | clickAdd
  /-- Click on the clear button. -/
  | clickClear
  /-- The oldest outstanding `updateOpenAPI` promise resolves. -/
  | addResolved
  /-- The oldest outstanding `updateOpenAPI` promise rejects. -/
  | addRejected
  deriving DecidableEq

/-- One step of the add-operation form.  `none`: the event cannot happen in this
state (the button is disabled, no promise is outstanding). -/
def stepAdd (st : AddForm) : AddFormEvent → Option AddForm
  | .inputChange name value =>
    -- setOperation({ ...operation, [name]: value })
    some { st with operation := st.operation.assign name (.str value) }
  | .clickAdd =>
    -- <Fab disabled={isAdding} onClick={addOperation}>
    if st.isAdding then none else some (addOperation st)
  | .clickClear =>
    -- <IconButton disabled={isAdding} onClick={clearInputs}>
    if st.isAdding then none else some (clearInputs st)
  | .addResolved =>
    match st.pending with
    | [] => none
    | _ :: rest =>
      -- .then(() => { clearInputs(); setIsAdding(false); })
      some { clearInputs st with isAdding := false, pending := rest }
  | .addRejected =>
    match st.pending with
    | [] => none
    | _ :: rest =>
      -- the promise has no rejection handler
      some { st with pending := rest }

/-- Run a sequence of events on the add-operation form, oldest first. -/
def runAdd (st : AddForm) : List AddFormEvent → Option AddForm
  | [] => some st
  | ev :: rest => (stepAdd st ev).bind fun st2 => runAdd st2 rest

/-- The busy flag covers the outstanding promise: at most one promise is
outstanding, and none while the form is not adding. -/
def AddForm.addingCoversPending (st : AddForm) : Prop :=
  (st.isAdding = false ∧ st.pending = []) ∨
    (st.isAdding = true ∧ st.pending.length ≤ 1)

/-! ## The storefront detail page (`index.js`)

The callbacks of the page as functions of the data the backend returned.  The
elements of a returned list are objects, given by their own properties. -/

/-- Strict equality `===` of two values taken from two different responses:
primitives are compared by value, and two objects are never the same object. -/
def JsValue.strictEq : JsValue → JsValue → Bool
  | .undefined, .undefined => true
  | .null, .null => true
  | .bool a, .bool b => a == b
  | .num a, .num b => a == b
  | .str a, .str b => a == b
  | _, _ => false

/-- The inner loop of the `get_subscriptions` callback, over `subscriptions`: the
value of `subscribedApp` when it ends. -/
def subscribedAppLoop (application : JsProps) : List JsProps → Bool → Bool
  | [], subscribedApp => subscribedApp
  | subscription :: rest, subscribedApp =>
    if (subscription.lookup "applicationId").strictEq (application.lookup "applicationId") then
      subscribedAppLoop application rest true
    else
      subscribedAppLoop application rest subscribedApp

/-- The outer loop of the `get_subscriptions` callback, over `applications`: the
array `availableApplications` when it ends. -/
def availableApplicationsLoop (subscriptions : List JsProps) :
    List JsProps → List JsProps → List JsProps
  | [], availableApplications => availableApplications
  | application :: rest, availableApplications =>
    let subscribedApp := subscribedAppLoop application subscriptions false
    if !subscribedApp then
      availableApplicationsLoop subscriptions rest (availableApplications ++ [application])
    else
      availableApplicationsLoop subscriptions rest availableApplications

/-- The value of `context.applications` rendered into the application drop-down. -/
def availableApplications (applications subscriptions : List JsProps) : List JsProps :=
  availableApplicationsLoop subscriptions applications []

/-- An application is subscribed when some subscription of the list has its
`applicationId`. -/
def isSubscribed (subscriptions : List JsProps) (application : JsProps) : Bool :=
  subscriptions.any fun subscription =>
    (subscription.lookup "applicationId").strictEq (application.lookup "applicationId")

/-- Whether `text` starts with `pattern`. -/
def startsWithChars : List Char → List Char → Bool
  | _, [] => true
  | [], _ :: _ => false
  | c :: text, p :: pattern => c == p && startsWithChars text pattern

/-- The characters of `text.replace(pattern, replacement)` for a string `pattern`:
the first occurrence of the pattern is replaced, and the text is returned unchanged
when the pattern does not occur. -/
def replaceFirstChars (pattern replacement : List Char) : List Char → List Char
  | [] => if startsWithChars [] pattern then replacement else []
  | c :: text =>
    if startsWithChars (c :: text) pattern then
      replacement ++ (c :: text).drop pattern.length
    else
      c :: replaceFirstChars pattern replacement text

/-- The call `text.replace(pattern, replacement)` with a string pattern and a
replacement without `$`. -/
def jsReplace (text pattern replacement : String) : String :=
  String.mk (replaceFirstChars pattern.data replacement.data text.data)

/-- The fields of the API object the overview tab reads: `endpointURLs` holds, per
endpoint, the `environmentURLs` object as pairs of environment name and URL. -/
structure Api where
  isDefaultVersion : Bool
  version : String
  endpointURLs : List (String × List (String × String))

set_option linter.unusedVariables false in
/-- The array `currentEnvironmentURL` built for one environment URL. -/
def currentEnvironmentURL (api : Api) (environmentURL : String) : List String :=
  let currentEnvironmentURL := [environmentURL]
  if api.isDefaultVersion then
    let defaultEnvironmentURL := jsReplace environmentURL (api.version ++ "/") ""
    let defaultEnvironmentURL := jsReplace environmentURL api.version ""
    currentEnvironmentURL ++ [defaultEnvironmentURL]
  else
    currentEnvironmentURL

/-- The object `api.endpointURLs` after the two `for ... in` loops of the overview
branch: every environment URL replaced by its array. -/
def overviewEndpointURLs (api : Api) : List (String × List (String × List String)) :=
  api.endpointURLs.map fun endpoint =>
    (endpoint.1, endpoint.2.map fun environment =>
      (environment.1, currentEnvironmentURL api environment.2))

/-- Loose equality `v == "LITERAL"` against a string literal that is not a numeral,
as in the comparisons of `sourceType`: only the same string is equal to it. -/
def JsValue.looseEqStr : JsValue → String → Bool
  | .str t, literal => t == literal
  | _, _ => false

/-- Names of the members of `Object.prototype`.  Reading one of them on an object
literal that has no own property of that name gives the inherited member. -/
def objectPrototypeNames : List String :=
  ["constructor", "__defineGetter__", "__defineSetter__", "hasOwnProperty",
   "__lookupGetter__", "__lookupSetter__", "isPrototypeOf", "propertyIsEnumerable",
   "toString", "valueOf", "__proto__", "toLocaleString"]

/-- The flag the documents callback sets on a document according to its
`sourceType`. -/
def markSourceType (doc : JsProps) : JsProps :=
  if (doc.lookup "sourceType").looseEqStr "INLINE" then
    doc.assign "isInLine" (.bool true)
  else if (doc.lookup "sourceType").looseEqStr "FILE" then
    doc.assign "isFile" (.bool true)
  else if (doc.lookup "sourceType").looseEqStr "URL" then
    doc.assign "isURL" (.bool true)
  else
    doc

/-- The property key `doc.type` is used as. -/
def documentTypeKey (doc : JsProps) : String :=
  (doc.lookup "type").toStr

/-- The array stored under the own property `key` of `documentations`, empty when
there is no such property. -/
def groupOf : List (String × List JsProps) → String → List JsProps
  | [], _ => []
  | (k, docs) :: rest, key => if k = key then docs else groupOf rest key

/-- The object `documentations` after
`(documentations[key] || (documentations[key] = [])).push(doc)`, when the read of
`documentations[key]` finds an own property or nothing. -/
def pushToGroup (key : String) (doc : JsProps) :
    List (String × List JsProps) → List (String × List JsProps)
  | [] => [(key, [doc])]
  | (k, docs) :: rest =>
    if k = key then (k, docs ++ [doc]) :: rest else (k, docs) :: pushToGroup key doc rest

/-- The first loop of the documents callback, over `documentationList`: the object
`documentations` when it ends.  A type that names a member of `Object.prototype`
and has no group yet reads the inherited member, which has no `push`. -/
def documentationsLoop :
    List JsProps → List (String × List JsProps) → Except JsError (List (String × List JsProps))
  | [], documentations => .ok documentations
  | doc :: rest, documentations =>
    let doc := markSourceType doc
    let key := documentTypeKey doc
    if key ∉ documentations.map Prod.fst ∧ key ∈ objectPrototypeNames then
      .error .typeError
    else
      documentationsLoop rest (pushToGroup key doc documentations)

/-- The grouping the documents callback builds from `jsonData.obj.list`; `none` is a
list that is `null` or missing. -/
def groupDocuments (documentationList : Option (List JsProps)) :
    Except JsError (List (String × List JsProps)) :=
  match documentationList with
  | none => .ok []
  | some list => documentationsLoop list []

/-- What the grouping loop has established after the documents `processed`: the
keys are distinct, the group under every key is the list of the processed documents
of that type in their order, and no key has an empty group. -/
def groupsMatch (processed : List JsProps) (documentations : List (String × List JsProps)) :
    Prop :=
  (documentations.map Prod.fst).Nodup ∧
  (∀ key, groupOf documentations key =
    (processed.map markSourceType).filter (fun d => documentTypeKey d = key)) ∧
  (∀ key ∈ documentations.map Prod.fst, groupOf documentations key ≠ [])

/-- Three documents as the backend returns them: two how-tos and one sample. -/
def sampleDocuments : List JsProps :=
  [.cons "name" (.str "Getting started") (.cons "type" (.str "HOWTO")
      (.cons "sourceType" (.str "INLINE") .nil)),
   .cons "name" (.str "Client code") (.cons "type" (.str "SAMPLES")
      (.cons "sourceType" (.str "URL") .nil)),
   .cons "name" (.str "Throttling") (.cons "type" (.str "HOWTO")
      (.cons "sourceType" (.str "FILE") .nil))]

/-- The four fetches of the detail page. -/
inductive PageFetch where
  /-- The call `get_apis_apiId`. -/
  | apiDetail
  /-- The call `get_applications`. -/
  | applications
  /-- The call `get_subscriptions`. -/
  | subscriptions
  /-- The call `get_apis_apiId_documents`. -/
  | documents
  deriving DecidableEq

/-- What a callback of the page does that the user can see. -/
inductive PageEffect where
  /-- The call `alert(message)`. -/
  | alert (message : String)
  /-- The call `redirectToLogin(contextPath)`. -/
  | redirectToLogin (contextPath : String)
  deriving DecidableEq

/-- The error object handed to a failure callback: its HTTP status and the string it
converts to. -/
structure FetchError where
  status : Int
  text : String
  deriving DecidableEq

/-- The failure callback the page passes with each fetch, as the effects it has on
an error; `none` where the call passes no failure callback. -/
def failureCallback (apiId contextPath : String) :
    PageFetch → Option (FetchError → List PageEffect)
  | .apiDetail => some fun jqXHR =>
    [PageEffect.alert ("Error occurred while retrieve api with id  : " ++ apiId)] ++
      (if jqXHR.status = 401 then [PageEffect.redirectToLogin contextPath] else [])
  | .applications => some fun error =>
    [PageEffect.alert ("Error occurred while retrieve Applications" ++ error.text)] ++
      (if error.status = 401 then [PageEffect.redirectToLogin contextPath] else [])
  | .subscriptions => some fun error =>
    [PageEffect.alert ("Error occurred while retrieve Applications" ++ error.text)] ++
      (if error.status = 401 then [PageEffect.redirectToLogin contextPath] else [])
  | .documents => none

/-- What the page does when a fetch fails with `error`. -/
def onFetchFailure (apiId contextPath : String) (fetch : PageFetch) (error : FetchError) :
    List PageEffect :=
  match failureCallback apiId contextPath fetch with
  | none => []
  | some callback => callback error

/-! ## Objects with identity

The reducer once more, this time over a store of objects, so that two references to
one object can be told from two equal objects.  An address is an index into the
store; allocation appends.  `cloneDeep` takes fuel, enough of it being the nesting
depth of the objects of the value. -/

/-- A value whose objects are references into a store. -/
inductive RefValue where
  | undefined
  | null
  | bool (b : Bool)
  | num (n : Int)
  | str (s : String)
  | ref (address : Nat)
  deriving DecidableEq

/-- The store: the own properties of every allocated object, by address. -/
abbrev ObjectStore := List (List (String × RefValue))

/-- Value of the own property `key`; `undefined` when there is none. -/
def refLookup : List (String × RefValue) → String → RefValue
  | [], _ => .undefined
  | (k, v) :: rest, key => if k = key then v else refLookup rest key

/-- Own properties after `o[key] = val`. -/
def refAssign : List (String × RefValue) → String → RefValue → List (String × RefValue)
  | [], key, val => [(key, val)]
  | (k, v) :: rest, key, val =>
    if k = key then (k, val) :: rest else (k, v) :: refAssign rest key val

/-- Property read `o[key]`; `none` is the `TypeError`. -/
def ObjectStore.getProp (store : ObjectStore) : RefValue → String → Option RefValue
  | .ref address, key => (store[address]?).map fun props => refLookup props key
  | .undefined, _ => none
  | .null, _ => none
  | _, _ => some .undefined

/-- Property write `o[key] = val` in strict mode: the store after it; `none` is the
`TypeError`. -/
def ObjectStore.setProp (store : ObjectStore) : RefValue → String → RefValue → Option ObjectStore
  | .ref address, key, val =>
    (store[address]?).map fun props => store.set address (refAssign props key val)
  | _, _, _ => none

/-- Truthiness; a reference is an object. -/
def RefValue.truthy : RefValue → Bool
  | .undefined => false
  | .null => false
  | .bool b => b
  | .num n => n != 0
  | .str s => s != ""
  | .ref _ => true

/-- Clone the values of a property list one after the other with `clone`. -/
def ObjectStore.cloneProps (clone : ObjectStore → RefValue → Option (ObjectStore × RefValue)) :
    ObjectStore → List (String × RefValue) → Option (ObjectStore × List (String × RefValue))
  | store, [] => some (store, [])
  | store, (key, value) :: rest =>
    match clone store value with
    | none => none
    | some (store1, value1) =>
      match ObjectStore.cloneProps clone store1 rest with
      | none => none
      | some (store2, rest1) => some (store2, (key, value1) :: rest1)

/-- The `cloneDeep` of lodash: a primitive is returned as it is, an object is copied
into a new object whose property values are clones.  An object reached twice is
copied twice; data parsed from JSON has no such object.  `none`: out of fuel, or a
reference to no object. -/
def ObjectStore.cloneDeep : Nat → ObjectStore → RefValue → Option (ObjectStore × RefValue)
  | fuel + 1, store, .ref address =>
    match store[address]? with
    | none => none
    | some props =>
      match ObjectStore.cloneProps (ObjectStore.cloneDeep fuel) store props with
      | none => none
      | some (store1, props1) => some (store1 ++ [props1], .ref store1.length)
  | 0, _, .ref _ => none
  | _, store, value => some (store, value)

/-- An action of the reducer: its name and `event.value`. -/
structure RefAction where
  action : String
  value : RefValue
  deriving DecidableEq

/-- The `'Any'` or `'None'` string an auth toggle writes. -/
def refAuthTypeOf (value : RefValue) : RefValue :=
  if value.truthy then .str "Any" else .str "None"

/-- The function `operationReducer` of `Operation.jsx` over the store: the store and
the returned state after the run; `none` when it throws or `cloneDeep` has too little
fuel.  The call of `setIsNotSaved` is left out here, it touches no object. -/
def ObjectStore.operationReducer (fuel : Nat) (store : ObjectStore) (operationState : RefValue)
    (operationAction : RefAction) : Option (ObjectStore × RefValue) :=
  let action := operationAction.action
  match ObjectStore.cloneDeep fuel store operationState with
  | none => none
  | some (store, nextState) =>
    if action = "update" then
      some (store, operationAction.value)
    else if action = "summary" ∨ action = "description" then
      -- nextState.spec[action] = event.value
      match store.getProp nextState "spec" with
      | none => none
      | some spec =>
        match store.setProp spec action operationAction.value with
        | none => none
        | some store => some (store, nextState)
    else if action = "authType" then
      -- nextState[action] = event.value ? 'Any' : 'None'
      match store.setProp nextState action (refAuthTypeOf operationAction.value) with
      | none => none
      | some store =>
        -- nextState.spec['x-auth-type'] = event.value ? 'Any' : 'None'
        match store.getProp nextState "spec" with
        | none => none
        | some spec =>
          match store.setProp spec "x-auth-type" (refAuthTypeOf operationAction.value) with
          | none => none
          | some store => some (store, nextState)
    else
      some (store, operationState)

/-- Dispatch a sequence of actions, oldest first. -/
def ObjectStore.dispatchAll (fuel : Nat) :
    ObjectStore → RefValue → List RefAction → Option (ObjectStore × RefValue)
  | store, operationState, [] => some (store, operationState)
  | store, operationState, operationAction :: rest =>
    match ObjectStore.operationReducer fuel store operationState operationAction with
    | none => none
    | some (store1, nextState) => ObjectStore.dispatchAll fuel store1 nextState rest

/-- The component on the store: the initial reducer state `cloneDeep(initOperation)`,
then the actions. -/
def ObjectStore.mountAndDispatch (fuel : Nat) (store : ObjectStore) (initOperation : RefValue)
    (actions : List RefAction) : Option (ObjectStore × RefValue) :=
  match ObjectStore.cloneDeep fuel store initOperation with
  | none => none
  | some (store1, operationState) => ObjectStore.dispatchAll fuel store1 operationState actions

/-- A value that is no reference to an object allocated before the store had `size`
objects. -/
def RefValue.freshFor (size : Nat) : RefValue → Prop
  | .ref address => size ≤ address
  | _ => True

/-- What a clone function must satisfy: it only appends objects to the store, what
it returns is no reference to an object of the store before, and neither is any
property value of an appended object. -/
def ClonesFresh (clone : ObjectStore → RefValue → Option (ObjectStore × RefValue)) : Prop :=
  ∀ store value store2 value2, clone store value = some (store2, value2) →
    ∃ ext, store2 = store ++ ext ∧ value2.freshFor store.length ∧
      ∀ props ∈ ext, ∀ kv ∈ props, RefValue.freshFor store.length kv.2

/-- The example operation as the caller holds it: the operation at address 0, its
`spec` at address 1. -/
def petsStore : ObjectStore :=
  [[("verb", .str "GET"), ("target", .str "/pets"), ("authType", .str "None"),
      ("spec", .ref 1)],
   [("summary", .str ""), ("description", .str "")]]

/-- The store after the component mounted on the example operation, accepted it by
an update action and handled a summary edit: the caller's two objects, then the
clones made at the mount, by the update run and by the edit run. -/
def petsStoreEdited : ObjectStore :=
  [[("verb", .str "GET"), ("target", .str "/pets"), ("authType", .str "None"),
      ("spec", .ref 1)],
   [("summary", .str ""), ("description", .str "")],
   [("summary", .str ""), ("description", .str "")],
   [("verb", .str "GET"), ("target", .str "/pets"), ("authType", .str "None"),
      ("spec", .ref 2)],
   [("summary", .str ""), ("description", .str "")],
   [("verb", .str "GET"), ("target", .str "/pets"), ("authType", .str "None"),
      ("spec", .ref 4)],
   [("summary", .str "List pets"), ("description", .str "")],
   [("verb", .str "GET"), ("target", .str "/pets"), ("authType", .str "None"),
      ("spec", .ref 6)]]

/-! ## The storefront: the tab list -/

/-- The array `tabs` after `tabs[index][key] = value`, for an index within it. -/
def assignAt : List JsProps → Nat → String → JsValue → List JsProps
  | [], _, _, _ => []
  | tab :: rest, 0, key, value => tab.assign key value :: rest
  | tab :: rest, index + 1, key, value => tab :: assignAt rest index key value

/-- The loop `for (var i = 0; i < tabs.length; i++)` that assigns the tab classes,
from the value `i` of the loop variable on; `remaining` is the number of iterations
left, `tabs.length - i`. -/
def tabClassLoop : Nat → Nat → List JsProps → List JsProps
  | 0, _, tabs => tabs
  | remaining + 1, i, tabs =>
    let tabs :=
      if i = 0 then
        assignAt (assignAt tabs i "tabClass" (.str "first active")) i "contentClass"
          (.str "in active")
      else if i = tabs.length - 1 then
        assignAt tabs (tabs.length - 1) "tabclass" (.str "last")
      else
        tabs
    tabClassLoop remaining (i + 1) tabs

/-- The array `tabs` after the loop that assigns the tab classes. -/
def assignTabClasses (tabs : List JsProps) : List JsProps :=
  tabClassLoop tabs.length 0 tabs

/-- The `body` of a tab: an array of one object holding `inputs`. -/
def tabBody (inputs : JsProps) : JsValue :=
  .obj (.cons "0" (.obj (.cons "inputs" (.obj inputs) .nil)) .nil)

/-- The array `tabs` as the `get_apis_apiId` callback builds it; `apiTypeUpper` is
the value of `apiType.toUpperCase()`. -/
def detailTabs (isAPIConsoleEnabled : Bool) (apiTypeUpper : String) (isForumEnabled : Bool) :
    List JsProps :=
  let tabs : List JsProps := []
  let tabs := tabs ++ [.cons "title" (.str "Overview") (.cons "id" (.str "api-overview")
    (.cons "body" (tabBody (.cons "api" (.obj .nil) (.cons "user" (.obj .nil) .nil))) .nil))]
  let tabs := tabs ++ [.cons "title" (.str "Documentation")
    (.cons "id" (.str "api-documentation")
      (.cons "body" (tabBody (.cons "api" (.obj .nil) .nil)) .nil))]
  let tabs :=
    if isAPIConsoleEnabled && apiTypeUpper != "WS" then
      tabs ++ [.cons "title" (.str "API Console") (.cons "id" (.str "api-swagger")
        (.cons "body"
          (tabBody (.cons "api" (.obj .nil) (.cons "subscriptions" (.obj .nil) .nil))) .nil))]
    else tabs
  let tabs :=
    if isForumEnabled then
      tabs ++ [.cons "title" (.str "Forum") (.cons "id" (.str "forum-list")
        (.cons "body"
          (tabBody (.cons "api" (.obj .nil) (.cons "uriTemplates" (.obj .nil) .nil))) .nil))]
    else tabs
  tabs

/-- The tab list of the page: the console and the forum are switched on and the API
type is `REST`, as the callback has it. -/
def pageTabs : List JsProps :=
  assignTabClasses (detailTabs true "REST" true)

/-- The caller's store when a second operation has been pushed: the example
operation at address 0 with its `spec` at address 1, the pushed operation at
address 2 with its `spec` at address 3. -/
def pushedStore : ObjectStore :=
  petsStore ++
    [[("verb", .str "POST"), ("target", .str "/pets"), ("authType", .str "Any"),
        ("spec", .ref 3)],
     [("summary", .str "Add a pet"), ("description", .str "")]]

/-- A returned list with one document whose type names a member of
`Object.prototype`. -/
def constructorDocuments : List JsProps :=
  [.cons "name" (.str "Getting started") (.cons "type" (.str "constructor")
      (.cons "sourceType" (.str "INLINE") .nil))]

/-! ## Properties of the value model -/

mutual
theorem cloneDeep_eq : ∀ v : JsValue, cloneDeep v = v
  | .undefined => by simp [cloneDeep]
  | .null => by simp [cloneDeep]
  | .bool _ => by simp [cloneDeep]
  | .num _ => by simp [cloneDeep]
  | .str _ => by simp [cloneDeep]
  | .obj props => by simp [cloneDeep, cloneDeepProps_eq props]
theorem cloneDeepProps_eq : ∀ ps : JsProps, cloneDeepProps ps = ps
  | .nil => by simp [cloneDeepProps]
  | .cons k v rest => by simp [cloneDeepProps, cloneDeep_eq v, cloneDeepProps_eq rest]
end

theorem JsProps.lookup_assign_same : ∀ (ps : JsProps) (key : String) (val : JsValue),
    (ps.assign key val).lookup key = val
  | .nil, key, val => by simp [JsProps.assign, JsProps.lookup]
  | .cons k v rest, key, val => by
    by_cases h : k = key
    · simp [JsProps.assign, JsProps.lookup, h]
    · simp [JsProps.assign, JsProps.lookup, h, JsProps.lookup_assign_same rest key val]

theorem JsProps.lookup_assign_other : ∀ (ps : JsProps) (key other : String) (val : JsValue),
    other ≠ key → (ps.assign key val).lookup other = ps.lookup other
  | .nil, key, other, val, hne => by
    simp [JsProps.assign, JsProps.lookup, Ne.symm hne]
  | .cons k v rest, key, other, val, hne => by
    by_cases h : k = key
    · subst h
      simp [JsProps.assign, JsProps.lookup, Ne.symm hne]
    · by_cases h2 : k = other
      · subst h2
        simp [JsProps.assign, JsProps.lookup, h]
      · simp [JsProps.assign, JsProps.lookup, h, h2,
          JsProps.lookup_assign_other rest key other val hne]

/-! ## The reducer: what each action returns -/

theorem operationReducer_text (ps sp : JsProps) (action : String) (ev : OperationEvent)
    (hspec : ps.lookup "spec" = .obj sp) (hact : action = "summary" ∨ action = "description") :
    (operationReducer (.obj ps) ⟨action, ev⟩).returned =
      .ok (.obj (ps.assign "spec" (.obj (sp.assign action ev.value)))) := by
  have hne : action ≠ "update" := by
    rcases hact with h | h <;> subst h <;> decide
  simp only [operationReducer, cloneDeep_eq, hne, if_false, hact, if_true]
  simp [JsValue.getProp, hspec, JsValue.setProp, bind, Except.bind]

theorem operationReducer_authType (ps sp : JsProps) (ev : OperationEvent)
    (hspec : ps.lookup "spec" = .obj sp) :
    (operationReducer (.obj ps) ⟨"authType", ev⟩).returned =
      .ok (.obj ((ps.assign "authType" (authTypeOf ev.value)).assign "spec"
        (.obj (sp.assign "x-auth-type" (authTypeOf ev.value))))) := by
  have h1 : (ps.assign "authType" (authTypeOf ev.value)).lookup "spec" = .obj sp := by
    rw [JsProps.lookup_assign_other _ _ _ _ (by decide), hspec]
  simp only [operationReducer, cloneDeep_eq]
  simp [JsValue.getProp, h1, JsValue.setProp, bind, Except.bind]

/-- C1: on a snapshot with a spec mapping, the summary action with text `t` returns
a snapshot whose `spec.summary` is `t`, the description action one whose
`spec.description` is `t`, and every other field of the snapshot and of its spec
has the value it had before. -/
theorem C1_text_actions_patch_one_field (s : JsValue) (ps sp : JsProps) (t : String)
    (evOperation : JsValue) (action : String)
    (hs : s = .obj ps) (hspec : ps.lookup "spec" = .obj sp)
    (hact : action = "summary" ∨ action = "description") :
    ∃ rp rsp,
      (operationReducer s ⟨action, ⟨evOperation, .str t⟩⟩).returned = .ok (.obj rp) ∧
      rp.lookup "spec" = .obj rsp ∧
      rsp.lookup action = .str t ∧
      (∀ k, k ≠ action → rsp.lookup k = sp.lookup k) ∧
      (∀ k, k ≠ "spec" → rp.lookup k = ps.lookup k) := by
  subst hs
  refine ⟨ps.assign "spec" (.obj (sp.assign action (.str t))), sp.assign action (.str t),
    ?_, ?_, ?_, ?_, ?_⟩
  · exact operationReducer_text ps sp action ⟨evOperation, .str t⟩ hspec hact
  · exact JsProps.lookup_assign_same _ _ _
  · exact JsProps.lookup_assign_same _ _ _
  · intro k hk
    exact JsProps.lookup_assign_other _ _ _ _ hk
  · intro k hk
    exact JsProps.lookup_assign_other _ _ _ _ hk

theorem C1_witness :
    ∃ rp rsp,
      (operationReducer petsOperation ⟨"summary", ⟨petsOperation, .str "List pets"⟩⟩).returned =
        .ok (.obj rp) ∧
      rp.lookup "spec" = .obj rsp ∧
      rsp.lookup "summary" = .str "List pets" ∧
      (∀ k, k ≠ "summary" → rsp.lookup k =
        (JsProps.cons "summary" (.str "") (.cons "description" (.str "") .nil)).lookup k) ∧
      (∀ k, k ≠ "spec" → rp.lookup k =
        (JsProps.cons "verb" (.str "GET") (.cons "target" (.str "/pets")
          (.cons "authType" (.str "None")
            (.cons "spec" (.obj (.cons "summary" (.str "") (.cons "description" (.str "") .nil)))
              .nil)))).lookup k) :=
  C1_text_actions_patch_one_field petsOperation _ _ "List pets" petsOperation "summary"
    rfl rfl (Or.inl rfl)

/-- C2: on a snapshot with a spec mapping, the authType action with boolean `b`
returns a snapshot whose `authType` is "Any" when `b` is true and "None" when it is
false, whose `spec["x-auth-type"]` is that same string, and whose other fields are
those of the snapshot before. -/
theorem C2_authType_action_mirrors (s : JsValue) (ps sp : JsProps) (b : Bool)
    (evOperation : JsValue)
    (hs : s = .obj ps) (hspec : ps.lookup "spec" = .obj sp) :
    ∃ rp rsp,
      (operationReducer s ⟨"authType", ⟨evOperation, .bool b⟩⟩).returned = .ok (.obj rp) ∧
      rp.lookup "authType" = .str (if b then "Any" else "None") ∧
      rp.lookup "spec" = .obj rsp ∧
      rsp.lookup "x-auth-type" = .str (if b then "Any" else "None") ∧
      (∀ k, k ≠ "x-auth-type" → rsp.lookup k = sp.lookup k) ∧
      (∀ k, k ≠ "authType" → k ≠ "spec" → rp.lookup k = ps.lookup k) := by
  subst hs
  have hv : authTypeOf (.bool b) = .str (if b then "Any" else "None") := by
    cases b <;> rfl
  refine ⟨(ps.assign "authType" (authTypeOf (.bool b))).assign "spec"
      (.obj (sp.assign "x-auth-type" (authTypeOf (.bool b)))),
    sp.assign "x-auth-type" (authTypeOf (.bool b)),
    operationReducer_authType ps sp ⟨evOperation, .bool b⟩ hspec, ?_, ?_, ?_, ?_, ?_⟩
  · rw [JsProps.lookup_assign_other _ _ _ _ (by decide), JsProps.lookup_assign_same, hv]
  · exact JsProps.lookup_assign_same _ _ _
  · rw [JsProps.lookup_assign_same, hv]
  · intro k hk
    exact JsProps.lookup_assign_other _ _ _ _ hk
  · intro k hk1 hk2
    rw [JsProps.lookup_assign_other _ _ _ _ hk2, JsProps.lookup_assign_other _ _ _ _ hk1]

theorem C2_witness :
    ∃ rp rsp,
      (operationReducer petsOperation ⟨"authType", ⟨.undefined, .bool true⟩⟩).returned =
        .ok (.obj rp) ∧
      rp.lookup "authType" = .str "Any" ∧
      rp.lookup "spec" = .obj rsp ∧
      rsp.lookup "x-auth-type" = .str "Any" ∧
      (∀ k, k ≠ "x-auth-type" → rsp.lookup k =
        (JsProps.cons "summary" (.str "") (.cons "description" (.str "") .nil)).lookup k) ∧
      (∀ k, k ≠ "authType" → k ≠ "spec" → rp.lookup k =
        (JsProps.cons "verb" (.str "GET") (.cons "target" (.str "/pets")
          (.cons "authType" (.str "None")
            (.cons "spec" (.obj (.cons "summary" (.str "") (.cons "description" (.str "") .nil)))
              .nil)))).lookup k) :=
  C2_authType_action_mirrors petsOperation _ _ true .undefined rfl rfl

theorem operationReducer_update (s : JsValue) (ev : OperationEvent) :
    operationReducer s ⟨"update", ev⟩ = { setIsNotSaved := [], returned := .ok ev.value } := by
  simp [operationReducer]

theorem operationReducer_calls (s : JsValue) (a : OperationAction) :
    (operationReducer s a).setIsNotSaved = if a.action = "update" then [] else [true] := by
  by_cases h : a.action = "update" <;> simp [operationReducer, h]

theorem operationActionsDispatcher_update (st : Editor) (ev : OperationEvent) :
    operationActionsDispatcher st ⟨"update", ev⟩ = some { st with operation := ev.value } := by
  simp [operationActionsDispatcher, operationReducer_update]

/-- C3, as the code has it: the update action with value `v` returns `v`, whatever
the current snapshot is, and makes no call to `setIsNotSaved`, so after the dispatch
the dirty flag has the value it had before; over the store of objects the state it
returns is the supplied value itself, the same reference, whenever the reducer
returns. -/
theorem C3_update_stores_the_value_itself (st : Editor) (s v evOperation : JsValue)
    (fuel : Nat) (store : ObjectStore) (state value : RefValue) :
    (operationReducer s ⟨"update", ⟨evOperation, v⟩⟩).returned = .ok v ∧
    (operationReducer s ⟨"update", ⟨evOperation, v⟩⟩).setIsNotSaved = [] ∧
    (∃ st2, operationActionsDispatcher st ⟨"update", ⟨evOperation, v⟩⟩ = some st2 ∧
      st2.operation = v ∧ st2.isNotSaved = st.isNotSaved) ∧
    ObjectStore.operationReducer fuel store state ⟨"update", value⟩ =
      (ObjectStore.cloneDeep fuel store state).map (fun cloned => (cloned.1, value)) := by
  refine ⟨?_, ?_, ?_, ?_⟩
  · rw [operationReducer_update]
  · rw [operationReducer_update]
  · exact ⟨_, operationActionsDispatcher_update st ⟨evOperation, v⟩, rfl, rfl⟩
  · unfold ObjectStore.operationReducer
    cases ObjectStore.cloneDeep fuel store state with
    | none => rfl
    | some cloned => simp

theorem C3_witness :
    (operationReducer (petsWithSummary "List pets")
      ⟨"update", ⟨.undefined, petsOperation⟩⟩).returned = .ok petsOperation ∧
    ObjectStore.operationReducer 2 pushedStore (.ref 0) ⟨"update", .ref 2⟩ =
      some (pushedStore ++
        [[("summary", .str ""), ("description", .str "")],
         [("verb", .str "GET"), ("target", .str "/pets"), ("authType", .str "None"),
          ("spec", .ref 4)]], .ref 2) :=
  ⟨(C3_update_stores_the_value_itself petsMounted (petsWithSummary "List pets") petsOperation
      .undefined 2 pushedStore (.ref 0) (.ref 2)).1,
   (C3_update_stores_the_value_itself petsMounted (petsWithSummary "List pets") petsOperation
      .undefined 2 pushedStore (.ref 0) (.ref 2)).2.2.2.trans (by decide)⟩

/-- C3, as stated, fails: with the caller's pushed operation at address 2, the update
action returns the reference 2, the caller's own object, while a deep copy of that
operation is a new object, at address 5. -/
theorem C3_update_makes_no_copy :
    (∃ store2, ObjectStore.operationReducer 2 pushedStore (.ref 0) ⟨"update", .ref 2⟩ =
      some (store2, .ref 2)) ∧
    ¬ (RefValue.ref 2).freshFor pushedStore.length ∧
    (∃ store3, ObjectStore.cloneDeep 2 pushedStore (.ref 2) = some (store3, .ref 5)) ∧
    RefValue.ref 2 ≠ RefValue.ref 5 := by
  refine ⟨⟨pushedStore ++
      [[("summary", .str ""), ("description", .str "")],
       [("verb", .str "GET"), ("target", .str "/pets"), ("authType", .str "None"),
        ("spec", .ref 4)]], by decide⟩, ?_,
    ⟨pushedStore ++
      [[("summary", .str "Add a pet"), ("description", .str "")],
       [("verb", .str "POST"), ("target", .str "/pets"), ("authType", .str "Any"),
        ("spec", .ref 4)]], by decide⟩, by decide⟩
  simp [RefValue.freshFor, pushedStore, petsStore]

/-- C10: for every snapshot and every action whose name is not "update" the
reducer calls `setIsNotSaved(true)`, whatever it returns or throws, so a dispatch
that returns leaves the dirty flag true; for an update action the reducer makes no
call to `setIsNotSaved`. -/
theorem C10_non_update_sets_dirty (st : Editor) (s : JsValue) (a : OperationAction) :
    (a.action ≠ "update" →
      (operationReducer s a).setIsNotSaved = [true] ∧
      ∀ st2, operationActionsDispatcher st a = some st2 → st2.isNotSaved = true) ∧
    (a.action = "update" → (operationReducer s a).setIsNotSaved = []) := by
  refine ⟨fun hne => ⟨?_, ?_⟩, fun heq => ?_⟩
  · rw [operationReducer_calls, if_neg hne]
  · intro st2 h
    unfold operationActionsDispatcher at h
    simp only [operationReducer_calls, if_neg hne] at h
    split at h
    · exact absurd h (by simp)
    · simp only [Option.some.injEq] at h
      subst h
      rfl
  · rw [operationReducer_calls, if_pos heq]

theorem C10_witness :
    ((operationReducer (.obj .nil) ⟨"rename", ⟨.undefined, .str "x"⟩⟩).setIsNotSaved = [true] ∧
      ∀ st2, operationActionsDispatcher
        petsMounted
        ⟨"rename", ⟨.undefined, .str "x"⟩⟩ = some st2 → st2.isNotSaved = true) ∧
    (operationReducer (.obj .nil) ⟨"update", ⟨.undefined, petsOperation⟩⟩).setIsNotSaved = [] :=
  ⟨(C10_non_update_sets_dirty _ (.obj .nil) ⟨"rename", ⟨.undefined, .str "x"⟩⟩).1 (by decide),
   (C10_non_update_sets_dirty
      petsMounted
      (.obj .nil) ⟨"update", ⟨.undefined, petsOperation⟩⟩).2 rfl⟩

/-! ## The component: effect, handlers and steps -/

theorem acceptExternal_eq (st : Editor) :
    acceptExternal st = some (if st.isNotSaved then st else st.accepted) := by
  unfold acceptExternal
  cases h : st.isNotSaved <;> simp [operationActionsDispatcher_update, Editor.accepted]

theorem afterRender_eq (propChanged prev : Bool) (st : Editor) :
    afterRender propChanged prev st =
      some (if (propChanged || (prev != st.isNotSaved)) && !st.isNotSaved
        then st.accepted else st) := by
  unfold afterRender
  rw [acceptExternal_eq]
  cases propChanged <;> cases prev <;> cases h : st.isNotSaved <;> simp

theorem mount_eq (o : JsValue) :
    mount o = some
      { initOperation := o, operation := o, isSaving := false, isNotSaved := false,
        isCollapsed := false, updateOpenAPICalls := [], pending := [], warnings := [],
        lastAccepted := o, lastSaved := none } := by
  simp [mount, acceptExternal_eq, Editor.accepted]

/-- A dispatch of an action other than update, when the reducer returns: only the
snapshot and the dirty flag are written, and the flag is true. -/
theorem operationActionsDispatcher_edit (st st2 : Editor) (a : OperationAction)
    (hne : a.action ≠ "update") (h : operationActionsDispatcher st a = some st2) :
    st2 = { st with operation := st2.operation, isNotSaved := true } := by
  unfold operationActionsDispatcher at h
  simp only [operationReducer_calls, if_neg hne] at h
  split at h
  · exact absurd h (by simp)
  · simp only [Option.some.injEq] at h
    subst h
    rfl

/-- A dispatch of an action other than update followed by the effect phase: the
effect leaves the state alone, because the flag is true. -/
theorem dispatch_edit_afterRender (st st2 : Editor) (a : OperationAction)
    (hne : a.action ≠ "update")
    (h : (operationActionsDispatcher st a).bind (afterRender false st.isNotSaved) = some st2) :
    operationActionsDispatcher st a = some st2 ∧
      st2 = { st with operation := st2.operation, isNotSaved := true } := by
  rw [Option.bind_eq_some] at h
  obtain ⟨st1, h1, h2⟩ := h
  have h3 := operationActionsDispatcher_edit st st1 a hne h1
  have h4 : st1.isNotSaved = true := by rw [h3]
  rw [afterRender_eq] at h2
  simp only [h4, Bool.not_true, Bool.and_false, Bool.false_eq_true, if_false,
    Option.some.injEq] at h2
  subst h2
  exact ⟨h1, h3⟩

/-- An edit event, when its handler returns: only the snapshot and the dirty flag
are written, and the flag is true. -/
theorem step_edit (st st2 : Editor) (ev : EditorEvent) (hev : ev.isEdit = true)
    (h : step st ev = some st2) :
    st2 = { st with operation := st2.operation, isNotSaved := true } := by
  cases ev with
  | changeDescription value => exact (dispatch_edit_afterRender st st2 _ (by simp) h).2
  | changeSummary value => exact (dispatch_edit_afterRender st st2 _ (by simp) h).2
  | switchAuth checked => exact (dispatch_edit_afterRender st st2 _ (by simp) h).2
  | propChange v => simp [EditorEvent.isEdit] at hev
  | panelChange e => simp [EditorEvent.isEdit] at hev
  | clickSave => simp [EditorEvent.isEdit] at hev
  | saveResolved => simp [EditorEvent.isEdit] at hev
  | saveRejected => simp [EditorEvent.isEdit] at hev
  | clickReset => simp [EditorEvent.isEdit] at hev

theorem step_clickReset (st : Editor) :
    step st .clickReset = some
      (if st.isNotSaved
        then { st with isNotSaved := false, operation := st.initOperation,
                       lastAccepted := st.initOperation }
        else { st with operation := st.initOperation }) := by
  simp only [step, operationActionsDispatcher_update, Option.some_bind, afterRender_eq]
  cases h : st.isNotSaved <;> simp [Editor.accepted, h]

theorem step_propChange (st : Editor) (v : JsValue) :
    step st (.propChange v) = some
      (if st.isNotSaved
        then { st with initOperation := v }
        else { st with initOperation := v, operation := v, lastAccepted := v }) := by
  simp only [step, afterRender_eq]
  cases h : st.isNotSaved <;> simp [Editor.accepted, h]

theorem step_saveResolved (st : Editor) (payload : JsValue) (rest : List JsValue)
    (hp : st.pending = payload :: rest) :
    step st .saveResolved = some
      (if st.isNotSaved
        then { st with isNotSaved := false, pending := rest, lastSaved := some payload,
                       operation := st.initOperation, lastAccepted := st.initOperation,
                       isSaving := false }
        else { st with pending := rest, lastSaved := some payload, isSaving := false }) := by
  simp only [step, hp, afterRender_eq]
  cases h : st.isNotSaved <;> simp [Editor.accepted, h]

theorem handleCollapse_fields (st st2 : Editor) (expanded : Bool)
    (h : handleCollapse st expanded = some st2) :
    st2 = { st with isCollapsed := expanded, warnings := st2.warnings } := by
  unfold handleCollapse at h
  split at h
  · split at h
    · simp only [Option.some.injEq] at h
      subst h
      rfl
    · exact absurd h (by simp)
  · simp only [Option.some.injEq] at h
    subst h
    rfl

/-- Save resolution and Reset leave the dirty flag false. -/
theorem step_isNotSaved_clear (st st2 : Editor) (ev : EditorEvent) (h : step st ev = some st2)
    (hev : ev = .saveResolved ∨ ev = .clickReset) : st2.isNotSaved = false := by
  rcases hev with hev | hev
  · subst hev
    cases hp : st.pending with
    | nil => simp [step, hp] at h
    | cons payload rest =>
      rw [step_saveResolved st payload rest hp] at h
      simp only [Option.some.injEq] at h
      subst h
      cases hd : st.isNotSaved <;> simp [hd]
  · subst hev
    rw [step_clickReset] at h
    simp only [Option.some.injEq] at h
    subst h
    cases hd : st.isNotSaved <;> simp [hd]

/-- Every event other than an edit, a save resolution and Reset keeps the dirty
flag. -/
theorem step_isNotSaved_keep (st st2 : Editor) (ev : EditorEvent) (h : step st ev = some st2)
    (hedit : ev.isEdit = false) (hres : ev ≠ .saveResolved) (hreset : ev ≠ .clickReset) :
    st2.isNotSaved = st.isNotSaved := by
  cases ev with
  | changeDescription value => simp [EditorEvent.isEdit] at hedit
  | changeSummary value => simp [EditorEvent.isEdit] at hedit
  | switchAuth checked => simp [EditorEvent.isEdit] at hedit
  | propChange v =>
    rw [step_propChange] at h
    simp only [Option.some.injEq] at h
    subst h
    cases hd : st.isNotSaved <;> simp [hd]
  | panelChange e => rw [handleCollapse_fields st st2 e h]
  | clickSave =>
    simp only [step] at h
    split at h
    · exact absurd h (by simp)
    · simp only [Option.some.injEq] at h
      subst h
      rfl
  | saveResolved => exact absurd rfl hres
  | saveRejected =>
    cases hp : st.pending with
    | nil => simp [step, hp] at h
    | cons payload rest =>
      simp only [step, hp, Option.some.injEq] at h
      subst h
      rfl
  | clickReset => exact absurd rfl hreset

/-- The prop of the component changes only when the parent passes a new one. -/
theorem step_initOperation (st st2 : Editor) (ev : EditorEvent) (h : step st ev = some st2)
    (hev : ∀ v, ev ≠ .propChange v) : st2.initOperation = st.initOperation := by
  cases ev with
  | changeDescription value => rw [step_edit st st2 (.changeDescription value) rfl h]
  | changeSummary value => rw [step_edit st st2 (.changeSummary value) rfl h]
  | switchAuth checked => rw [step_edit st st2 (.switchAuth checked) rfl h]
  | propChange v => exact absurd rfl (hev v)
  | panelChange e => rw [handleCollapse_fields st st2 e h]
  | clickSave =>
    simp only [step] at h
    split at h
    · exact absurd h (by simp)
    · simp only [Option.some.injEq] at h
      subst h
      rfl
  | saveResolved =>
    cases hp : st.pending with
    | nil => simp [step, hp] at h
    | cons payload rest =>
      rw [step_saveResolved st payload rest hp] at h
      simp only [Option.some.injEq] at h
      subst h
      cases hd : st.isNotSaved <;> simp [hd]
  | saveRejected =>
    cases hp : st.pending with
    | nil => simp [step, hp] at h
    | cons payload rest =>
      simp only [step, hp, Option.some.injEq] at h
      subst h
      rfl
  | clickReset =>
    rw [step_clickReset] at h
    simp only [Option.some.injEq] at h
    subst h
    cases hd : st.isNotSaved <;> simp [hd]

theorem run_cons (st : Editor) (ev : EditorEvent) (evs : List EditorEvent) (st3 : Editor)
    (h : run st (ev :: evs) = some st3) :
    ∃ st2, step st ev = some st2 ∧ run st2 evs = some st3 := by
  simpa [run, Option.bind_eq_some] using h

theorem run_edits_initOperation : ∀ (evs : List EditorEvent) (st st2 : Editor),
    (∀ e ∈ evs, EditorEvent.isEdit e = true) → run st evs = some st2 →
    st2.initOperation = st.initOperation
  | [], st, st2, _, h => by
    simp only [run, Option.some.injEq] at h
    rw [h]
  | ev :: evs, st, st3, hed, h => by
    obtain ⟨st2, h1, h2⟩ := run_cons st ev evs st3 h
    have hev : EditorEvent.isEdit ev = true := hed ev (List.mem_cons_self _ _)
    rw [run_edits_initOperation evs st2 st3 (fun e he => hed e (List.mem_cons_of_mem _ he)) h2,
      step_edit st st2 ev hev h1]

theorem runFrom_eq (o : JsValue) (evs : List EditorEvent) :
    runFrom o evs = run
      { initOperation := o, operation := o, isSaving := false, isNotSaved := false,
        isCollapsed := false, updateOpenAPICalls := [], pending := [], warnings := [],
        lastAccepted := o, lastSaved := none } evs := by
  simp [runFrom, mount_eq]

/-- C4: from every state reached from the mount on `o` by summary, description and
authType edits, Reset returns, and leaves the snapshot equal to `o` (and to its
deep copy) with the dirty flag false. -/
theorem C4_reset_restores_original (o : JsValue) (evs : List EditorEvent) (st : Editor)
    (hedits : ∀ e ∈ evs, EditorEvent.isEdit e = true) (hrun : runFrom o evs = some st) :
    ∃ st2, step st .clickReset = some st2 ∧
      st2.operation = o ∧ st2.operation = cloneDeep o ∧ st2.isNotSaved = false := by
  rw [runFrom_eq] at hrun
  have hinit : st.initOperation = o := run_edits_initOperation evs _ st hedits hrun
  refine ⟨_, step_clickReset st, ?_, ?_, ?_⟩
  · cases hd : st.isNotSaved <;> simp [hd, hinit]
  · rw [cloneDeep_eq]
    cases hd : st.isNotSaved <;> simp [hd, hinit]
  · cases hd : st.isNotSaved <;> simp [hd]

theorem C4_witness :
    runFrom petsOperation [.changeSummary "List pets"] =
      some { petsMounted with operation := petsWithSummary "List pets", isNotSaved := true } ∧
    ∃ st2,
      step { petsMounted with operation := petsWithSummary "List pets", isNotSaved := true }
        .clickReset = some st2 ∧
      st2.operation = petsOperation ∧ st2.operation = cloneDeep petsOperation ∧
      st2.isNotSaved = false :=
  ⟨by decide,
   C4_reset_restores_original petsOperation [.changeSummary "List pets"]
    { petsMounted with operation := petsWithSummary "List pets", isNotSaved := true }
    (by decide) (by decide)⟩

/-- C5: for every state and every pushed operation `v` the push returns; while the
dirty flag is true the snapshot stays as it is, while the flag is false the snapshot
becomes `v`; the flag itself is not changed by the push. -/
theorem C5_push_ignored_while_dirty (st : Editor) (v : JsValue) :
    ∃ st2, step st (.propChange v) = some st2 ∧
      st2.operation = (if st.isNotSaved then st.operation else v) ∧
      st2.isNotSaved = st.isNotSaved ∧ st2.initOperation = v := by
  refine ⟨_, step_propChange st v, ?_, ?_, ?_⟩ <;> cases hd : st.isNotSaved <;> simp [hd]

/-! ## The dirty flag along a run -/

theorem step_dirty_stays (st st2 : Editor) (ev : EditorEvent) (h : step st ev = some st2)
    (hd : st.isNotSaved = true) (hres : ev ≠ .saveResolved) (hreset : ev ≠ .clickReset) :
    st2.isNotSaved = true := by
  cases hedit : ev.isEdit with
  | true => rw [step_edit st st2 ev hedit h]
  | false => rw [step_isNotSaved_keep st st2 ev h hedit hres hreset, hd]

theorem run_dirty_stays : ∀ (evs : List EditorEvent) (st st2 : Editor),
    st.isNotSaved = true → run st evs = some st2 →
    (∀ e ∈ evs, e ≠ EditorEvent.saveResolved ∧ e ≠ EditorEvent.clickReset) →
    st2.isNotSaved = true
  | [], st, st2, hd, h, _ => by
    simp only [run, Option.some.injEq] at h
    rw [← h, hd]
  | ev :: evs, st, st3, hd, h, hno => by
    obtain ⟨st2, h1, h2⟩ := run_cons st ev evs st3 h
    have hev := hno ev (List.mem_cons_self _ _)
    exact run_dirty_stays evs st2 st3 (step_dirty_stays st st2 ev h1 hd hev.1 hev.2) h2
      (fun e he => hno e (List.mem_cons_of_mem _ he))

/-- C6: after a summary, description or authType edit the dirty flag is true, and it
is true after every later run of events that contains neither a save resolution nor a
Reset; a step that takes the flag from true to false is a save resolution or a Reset,
and each of these two leaves the flag false. -/
theorem C6_dirty_until_save_or_reset (st st1 : Editor) (ev : EditorEvent)
    (hev : ev.isEdit = true) (h : step st ev = some st1) :
    st1.isNotSaved = true ∧
    (∀ evs st2, run st1 evs = some st2 →
      (∀ e ∈ evs, e ≠ EditorEvent.saveResolved ∧ e ≠ EditorEvent.clickReset) →
      st2.isNotSaved = true) ∧
    (∀ sa sb e, step sa e = some sb → sa.isNotSaved = true → sb.isNotSaved = false →
      e = EditorEvent.saveResolved ∨ e = EditorEvent.clickReset) ∧
    (∀ sa sb e, step sa e = some sb →
      e = EditorEvent.saveResolved ∨ e = EditorEvent.clickReset → sb.isNotSaved = false) := by
  have h1 : st1.isNotSaved = true := by rw [step_edit st st1 ev hev h]
  refine ⟨h1, ?_, ?_, ?_⟩
  · intro evs st2 hrun hno
    exact run_dirty_stays evs st1 st2 h1 hrun hno
  · intro sa sb e hs hda hdb
    by_contra hcon
    rw [not_or] at hcon
    have := step_dirty_stays sa sb e hs hda hcon.1 hcon.2
    rw [hdb] at this
    exact absurd this (by decide)
  · intro sa sb e hs he
    exact step_isNotSaved_clear sa sb e hs he

theorem C6_witness :
    ({ petsMounted with operation := petsWithSummary "List pets", isNotSaved := true } :
      Editor).isNotSaved = true ∧
    (∀ evs st2,
      run { petsMounted with operation := petsWithSummary "List pets", isNotSaved := true } evs =
        some st2 →
      (∀ e ∈ evs, e ≠ EditorEvent.saveResolved ∧ e ≠ EditorEvent.clickReset) →
      st2.isNotSaved = true) ∧
    (∀ sa sb e, step sa e = some sb → sa.isNotSaved = true → sb.isNotSaved = false →
      e = EditorEvent.saveResolved ∨ e = EditorEvent.clickReset) ∧
    (∀ sa sb e, step sa e = some sb →
      e = EditorEvent.saveResolved ∨ e = EditorEvent.clickReset → sb.isNotSaved = false) :=
  C6_dirty_until_save_or_reset petsMounted
    { petsMounted with operation := petsWithSummary "List pets", isNotSaved := true }
    (.changeSummary "List pets") rfl (by decide)

/-! ## Divergence of the snapshot and the dirty flag -/

theorem step_cleanMeansAccepted (st st2 : Editor) (ev : EditorEvent)
    (h : step st ev = some st2) (hinv : st.cleanMeansAccepted) : st2.cleanMeansAccepted := by
  intro hclean
  cases ev with
  | changeDescription value =>
    rw [step_edit st st2 (.changeDescription value) rfl h] at hclean
    exact absurd hclean (by simp)
  | changeSummary value =>
    rw [step_edit st st2 (.changeSummary value) rfl h] at hclean
    exact absurd hclean (by simp)
  | switchAuth checked =>
    rw [step_edit st st2 (.switchAuth checked) rfl h] at hclean
    exact absurd hclean (by simp)
  | propChange v =>
    rw [step_propChange] at h
    simp only [Option.some.injEq] at h
    subst h
    cases hd : st.isNotSaved <;> simp [hd] at hclean ⊢
  | panelChange e =>
    have hf := handleCollapse_fields st st2 e h
    rw [hf] at hclean ⊢
    exact hinv hclean
  | clickSave =>
    simp only [step] at h
    split at h
    · exact absurd h (by simp)
    · simp only [Option.some.injEq] at h
      subst h
      exact hinv hclean
  | saveResolved =>
    cases hp : st.pending with
    | nil => simp [step, hp] at h
    | cons payload rest =>
      rw [step_saveResolved st payload rest hp] at h
      simp only [Option.some.injEq] at h
      subst h
      cases hd : st.isNotSaved
      · simpa [hd] using hinv hd
      · simp [hd]
  | saveRejected =>
    cases hp : st.pending with
    | nil => simp [step, hp] at h
    | cons payload rest =>
      simp only [step, hp, Option.some.injEq] at h
      subst h
      exact hinv hclean
  | clickReset =>
    rw [step_clickReset] at h
    simp only [Option.some.injEq] at h
    subst h
    cases hd : st.isNotSaved
    · have := hinv hd
      simp [hd, this.2]
    · simp [hd]

theorem run_cleanMeansAccepted : ∀ (evs : List EditorEvent) (st st2 : Editor),
    run st evs = some st2 → st.cleanMeansAccepted → st2.cleanMeansAccepted
  | [], st, st2, h, hinv => by
    simp only [run, Option.some.injEq] at h
    rw [← h]
    exact hinv
  | ev :: evs, st, st3, h, hinv => by
    obtain ⟨st2, h1, h2⟩ := run_cons st ev evs st3 h
    exact run_cleanMeansAccepted evs st2 st3 h2 (step_cleanMeansAccepted st st2 ev h1 hinv)

theorem reachable_cleanMeansAccepted (o : JsValue) (evs : List EditorEvent) (st : Editor)
    (h : runFrom o evs = some st) : st.cleanMeansAccepted := by
  rw [runFrom_eq] at h
  exact run_cleanMeansAccepted evs _ st h (fun _ => ⟨rfl, rfl⟩)

/-- C7: in every state reached from a mount, if the snapshot differs from the
operation accepted last from outside and from the snapshot passed to the save that
resolved last, then the dirty flag is true. -/
theorem C7_divergence_implies_dirty (o : JsValue) (evs : List EditorEvent) (st : Editor)
    (hrun : runFrom o evs = some st)
    (hdiv : st.operation ≠ st.lastAccepted ∧ st.lastSaved ≠ some st.operation) :
    st.isNotSaved = true := by
  cases hd : st.isNotSaved with
  | true => rfl
  | false => exact absurd (reachable_cleanMeansAccepted o evs st hrun hd).1 hdiv.1

theorem C7_witness :
    runFrom petsOperation [.changeSummary "a", .clickSave, .changeSummary "b"] =
      some { petsMounted with
        operation := petsWithSummary "b", isNotSaved := true, isSaving := true,
        updateOpenAPICalls := [("operation", petsWithSummary "a")],
        pending := [petsWithSummary "a"] } ∧
    ({ petsMounted with
        operation := petsWithSummary "b", isNotSaved := true, isSaving := true,
        updateOpenAPICalls := [("operation", petsWithSummary "a")],
        pending := [petsWithSummary "a"] } : Editor).isNotSaved = true :=
  ⟨by decide,
   C7_divergence_implies_dirty petsOperation [.changeSummary "a", .clickSave, .changeSummary "b"]
    { petsMounted with
      operation := petsWithSummary "b", isNotSaved := true, isSaving := true,
      updateOpenAPICalls := [("operation", petsWithSummary "a")],
      pending := [petsWithSummary "a"] }
    (by decide) ⟨by decide, by decide⟩⟩

/-! ## Saving -/

/-- Events other than Save and the settling of a promise leave the busy indicator,
the outstanding promises and the calls made so far alone. -/
theorem step_save_frame (st st2 : Editor) (ev : EditorEvent) (h : step st ev = some st2)
    (hsettle : ev.isSettle = false) (hsave : ev ≠ .clickSave) :
    st2.isSaving = st.isSaving ∧ st2.pending = st.pending ∧
      st2.updateOpenAPICalls = st.updateOpenAPICalls := by
  cases ev with
  | changeDescription value =>
    rw [step_edit st st2 (.changeDescription value) rfl h]
    exact ⟨rfl, rfl, rfl⟩
  | changeSummary value =>
    rw [step_edit st st2 (.changeSummary value) rfl h]
    exact ⟨rfl, rfl, rfl⟩
  | switchAuth checked =>
    rw [step_edit st st2 (.switchAuth checked) rfl h]
    exact ⟨rfl, rfl, rfl⟩
  | propChange v =>
    rw [step_propChange] at h
    simp only [Option.some.injEq] at h
    subst h
    cases hd : st.isNotSaved <;> simp [hd]
  | panelChange e =>
    rw [handleCollapse_fields st st2 e h]
    exact ⟨rfl, rfl, rfl⟩
  | clickSave => exact absurd rfl hsave
  | saveResolved => simp [EditorEvent.isSettle] at hsettle
  | saveRejected => simp [EditorEvent.isSettle] at hsettle
  | clickReset =>
    rw [step_clickReset] at h
    simp only [Option.some.injEq] at h
    subst h
    cases hd : st.isNotSaved <;> simp [hd]

theorem step_clickSave (st : Editor) :
    step st .clickSave = if st.isSaving then none else some (saveChanges st) := by
  simp [step]

theorem step_oneSaveInFlight (st st2 : Editor) (ev : EditorEvent)
    (h : step st ev = some st2) (hinv : st.oneSaveInFlight) : st2.oneSaveInFlight := by
  by_cases hsave : ev = .clickSave
  · subst hsave
    rw [step_clickSave] at h
    rcases hinv with ⟨hidle, hp⟩ | ⟨hbusy, _⟩
    · simp only [hidle, Bool.false_eq_true, if_false, Option.some.injEq] at h
      subst h
      exact Or.inr ⟨rfl, st.operation, by simp [saveChanges, hp]⟩
    · simp [hbusy] at h
  · cases hsettle : ev.isSettle with
    | false =>
      obtain ⟨h1, h2, _⟩ := step_save_frame st st2 ev h hsettle hsave
      unfold Editor.oneSaveInFlight
      rw [h1, h2]
      exact hinv
    | true =>
      rcases hinv with ⟨_, hp⟩ | ⟨_, payload, hp⟩
      · cases ev <;> simp [EditorEvent.isSettle, step, hp] at hsettle h
      · cases ev with
        | saveResolved =>
          rw [step_saveResolved st payload [] hp] at h
          simp only [Option.some.injEq] at h
          subst h
          left
          cases hd : st.isNotSaved <;> simp [hd]
        | saveRejected =>
          simp only [step, hp, Option.some.injEq] at h
          subst h
          exact Or.inl ⟨rfl, rfl⟩
        | changeDescription value => simp [EditorEvent.isSettle] at hsettle
        | changeSummary value => simp [EditorEvent.isSettle] at hsettle
        | switchAuth checked => simp [EditorEvent.isSettle] at hsettle
        | propChange v => simp [EditorEvent.isSettle] at hsettle
        | panelChange e => simp [EditorEvent.isSettle] at hsettle
        | clickSave => simp [EditorEvent.isSettle] at hsettle
        | clickReset => simp [EditorEvent.isSettle] at hsettle

theorem run_oneSaveInFlight : ∀ (evs : List EditorEvent) (st st2 : Editor),
    run st evs = some st2 → st.oneSaveInFlight → st2.oneSaveInFlight
  | [], st, st2, h, hinv => by
    simp only [run, Option.some.injEq] at h
    rw [← h]
    exact hinv
  | ev :: evs, st, st3, h, hinv => by
    obtain ⟨st2, h1, h2⟩ := run_cons st ev evs st3 h
    exact run_oneSaveInFlight evs st2 st3 h2 (step_oneSaveInFlight st st2 ev h1 hinv)

theorem reachable_oneSaveInFlight (o : JsValue) (evs : List EditorEvent) (st : Editor)
    (h : runFrom o evs = some st) : st.oneSaveInFlight := by
  rw [runFrom_eq] at h
  exact run_oneSaveInFlight evs _ st h (Or.inl ⟨rfl, rfl⟩)

/-- While a save is outstanding, a run without a settling event keeps the busy
indicator, the outstanding promise and the calls made. -/
theorem run_while_saving : ∀ (evs : List EditorEvent) (st st2 : Editor),
    run st evs = some st2 → st.isSaving = true →
    (∀ e ∈ evs, EditorEvent.isSettle e = false) →
    st2.isSaving = true ∧ st2.pending = st.pending ∧
      st2.updateOpenAPICalls = st.updateOpenAPICalls
  | [], st, st2, h, hbusy, _ => by
    simp only [run, Option.some.injEq] at h
    rw [← h]
    exact ⟨hbusy, rfl, rfl⟩
  | ev :: evs, st, st3, h, hbusy, hno => by
    obtain ⟨st2, h1, h2⟩ := run_cons st ev evs st3 h
    have hsave : ev ≠ .clickSave := by
      intro hev
      subst hev
      simp [step_clickSave, hbusy] at h1
    obtain ⟨f1, f2, f3⟩ := step_save_frame st st2 ev h1 (hno ev (List.mem_cons_self _ _)) hsave
    obtain ⟨g1, g2, g3⟩ := run_while_saving evs st2 st3 h2 (by rw [f1, hbusy])
      (fun e he => hno e (List.mem_cons_of_mem _ he))
    exact ⟨g1, by rw [g2, f2], by rw [g3, f3]⟩

/-- C8: in a reachable state with snapshot `s` and no save under way, Save sets busy
and adds exactly one call `updateOpenAPI("operation", s)`, leaving snapshot and dirty
flag as they were; whatever happens before the promise settles, its resolution
returns with busy false and dirty false, and its rejection returns with busy false
and the dirty flag unchanged. -/
theorem C8_save_sets_busy_and_settles (o : JsValue) (evs0 : List EditorEvent) (st : Editor)
    (hreach : runFrom o evs0 = some st) (hidle : st.isSaving = false) :
    ∃ st1, step st .clickSave = some st1 ∧ st1.isSaving = true ∧
      st1.updateOpenAPICalls = st.updateOpenAPICalls ++ [("operation", st.operation)] ∧
      st1.operation = st.operation ∧ st1.isNotSaved = st.isNotSaved ∧
      ∀ evs stm, (∀ e ∈ evs, EditorEvent.isSettle e = false) → run st1 evs = some stm →
        stm.updateOpenAPICalls = st1.updateOpenAPICalls ∧
        (∃ s2, step stm .saveResolved = some s2 ∧ s2.isSaving = false ∧
          s2.isNotSaved = false ∧ s2.lastSaved = some st.operation) ∧
        (∃ s2, step stm .saveRejected = some s2 ∧ s2.isSaving = false ∧
          s2.isNotSaved = stm.isNotSaved) := by
  have hp : st.pending = [] := by
    rcases reachable_oneSaveInFlight o evs0 st hreach with ⟨_, hp⟩ | ⟨hbusy, _⟩
    · exact hp
    · rw [hidle] at hbusy
      exact absurd hbusy (by decide)
  refine ⟨saveChanges st, by simp [step_clickSave, hidle], rfl, rfl, rfl, rfl, ?_⟩
  intro evs stm hno hrun
  obtain ⟨_, g2, g3⟩ := run_while_saving evs (saveChanges st) stm hrun rfl hno
  have hpm : stm.pending = st.operation :: [] := by
    rw [g2]
    simp [saveChanges, hp]
  refine ⟨g3, ⟨_, step_saveResolved stm st.operation [] hpm, ?_, ?_, ?_⟩,
    ⟨{ stm with isSaving := false, pending := [] }, ?_, rfl, rfl⟩⟩
  · cases hd : stm.isNotSaved <;> simp [hd]
  · cases hd : stm.isNotSaved <;> simp [hd]
  · cases hd : stm.isNotSaved <;> simp [hd]
  · simp only [step, hpm]

theorem C8_witness :
    ∃ st1,
      step { petsMounted with operation := petsWithSummary "a", isNotSaved := true }
        .clickSave = some st1 ∧
      st1.isSaving = true ∧
      st1.updateOpenAPICalls = [] ++ [("operation", petsWithSummary "a")] ∧
      st1.operation = petsWithSummary "a" ∧ st1.isNotSaved = true ∧
      ∀ evs stm, (∀ e ∈ evs, EditorEvent.isSettle e = false) → run st1 evs = some stm →
        stm.updateOpenAPICalls = st1.updateOpenAPICalls ∧
        (∃ s2, step stm .saveResolved = some s2 ∧ s2.isSaving = false ∧
          s2.isNotSaved = false ∧ s2.lastSaved = some (petsWithSummary "a")) ∧
        (∃ s2, step stm .saveRejected = some s2 ∧ s2.isSaving = false ∧
          s2.isNotSaved = stm.isNotSaved) :=
  C8_save_sets_busy_and_settles petsOperation [.changeSummary "a"]
    { petsMounted with operation := petsWithSummary "a", isNotSaved := true }
    (by decide) rfl

/-- C9: in every state reached from a mount at most one save promise is outstanding
and busy is true exactly when one is; Save can be triggered exactly when busy is
false, it sets busy, and from then on it cannot be triggered again before the
promise settles. -/
theorem C9_at_most_one_save_in_flight (o : JsValue) (evs0 : List EditorEvent) (st : Editor)
    (hreach : runFrom o evs0 = some st) :
    st.pending.length ≤ 1 ∧
    (st.isSaving = true ↔ st.pending.length = 1) ∧
    ((∃ st1, step st .clickSave = some st1) ↔ st.isSaving = false) ∧
    (∀ st1, step st .clickSave = some st1 →
      st1.isSaving = true ∧ st1.pending.length = 1 ∧
      ∀ evs stm, (∀ e ∈ evs, EditorEvent.isSettle e = false) → run st1 evs = some stm →
        step stm .clickSave = none) := by
  have hinv := reachable_oneSaveInFlight o evs0 st hreach
  refine ⟨?_, ?_, ?_, ?_⟩
  · rcases hinv with ⟨_, hp⟩ | ⟨_, payload, hp⟩ <;> simp [hp]
  · rcases hinv with ⟨hidle, hp⟩ | ⟨hbusy, payload, hp⟩
    · simp [hp, hidle]
    · simp [hp, hbusy]
  · rw [step_clickSave]
    cases hs : st.isSaving <;> simp
  · intro st1 h1
    have hinv1 := step_oneSaveInFlight st st1 .clickSave h1 hinv
    rw [step_clickSave] at h1
    cases hs : st.isSaving with
    | true => simp [hs] at h1
    | false =>
      simp only [hs, Bool.false_eq_true, if_false, Option.some.injEq] at h1
      subst h1
      refine ⟨rfl, ?_, ?_⟩
      · rcases hinv1 with ⟨hidle, _⟩ | ⟨_, payload, hp⟩
        · exact absurd hidle (by simp [saveChanges])
        · rw [hp]
          rfl
      · intro evs stm hno hrun
        obtain ⟨g1, _, _⟩ := run_while_saving evs (saveChanges st) stm hrun rfl hno
        simp [step_clickSave, g1]

theorem C9_witness :
    ({ petsMounted with
        operation := petsWithSummary "a", isNotSaved := true, isSaving := true,
        updateOpenAPICalls := [("operation", petsWithSummary "a")],
        pending := [petsWithSummary "a"] } : Editor).pending.length ≤ 1 ∧
    step { petsMounted with
        operation := petsWithSummary "a", isNotSaved := true, isSaving := true,
        updateOpenAPICalls := [("operation", petsWithSummary "a")],
        pending := [petsWithSummary "a"] } .clickSave = none :=
  ⟨(C9_at_most_one_save_in_flight petsOperation [.changeSummary "a", .clickSave]
      { petsMounted with
        operation := petsWithSummary "a", isNotSaved := true, isSaving := true,
        updateOpenAPICalls := [("operation", petsWithSummary "a")],
        pending := [petsWithSummary "a"] } (by decide)).1,
   by decide⟩

/-! ## Unrecognized actions, the panel, and the snapshot after a save -/

/-- C11: for every snapshot and every action whose name is none of update, summary,
description and authType the reducer returns the snapshot it was given, so after the
dispatch the snapshot of the component is the one before. -/
theorem C11_unrecognized_action_keeps_snapshot (st : Editor) (s : JsValue)
    (a : OperationAction)
    (hupdate : a.action ≠ "update") (hsummary : a.action ≠ "summary")
    (hdescription : a.action ≠ "description") (hauth : a.action ≠ "authType") :
    (operationReducer s a).returned = .ok s ∧
    ∃ st2, operationActionsDispatcher st a = some st2 ∧ st2.operation = st.operation := by
  have hret : ∀ s, (operationReducer s a).returned = .ok s := by
    intro s
    simp [operationReducer, hupdate, hsummary, hdescription, hauth]
  refine ⟨hret s, ?_⟩
  unfold operationActionsDispatcher
  simp only [hret st.operation]
  exact ⟨_, rfl, rfl⟩

theorem C11_witness :
    (operationReducer petsOperation ⟨"rename", ⟨.undefined, .str "x"⟩⟩).returned =
      .ok petsOperation ∧
    ∃ st2, operationActionsDispatcher petsMounted ⟨"rename", ⟨.undefined, .str "x"⟩⟩ =
      some st2 ∧ st2.operation = petsMounted.operation :=
  C11_unrecognized_action_keeps_snapshot petsMounted petsOperation
    ⟨"rename", ⟨.undefined, .str "x"⟩⟩ (by decide) (by decide) (by decide) (by decide)

theorem JsValue.setProp_ok_obj (v : JsValue) (key : String) (val r : JsValue)
    (h : v.setProp key val = .ok r) : ∃ ps, r = .obj ps := by
  cases v <;> simp [JsValue.setProp] at h
  exact ⟨_, h.symm⟩

/-- An edit action that returns returns an object. -/
theorem operationReducer_edit_obj (s r : JsValue) (a : OperationAction)
    (hact : a.action = "summary" ∨ a.action = "description" ∨ a.action = "authType")
    (h : (operationReducer s a).returned = .ok r) : ∃ ps, r = .obj ps := by
  have hne : a.action ≠ "update" := by
    rcases hact with h | h | h <;> rw [h] <;> decide
  simp only [operationReducer, hne, if_false] at h
  split at h
  · cases h1 : (cloneDeep s).getProp "spec" with
    | error e => simp [h1, bind, Except.bind] at h
    | ok spec =>
      cases h2 : spec.setProp a.action a.event.value with
      | error e => simp [h1, h2, bind, Except.bind] at h
      | ok spec2 =>
        simp only [h1, h2, bind, Except.bind] at h
        exact JsValue.setProp_ok_obj _ _ _ _ h
  · split at h
    · cases h0 : (cloneDeep s).setProp a.action (authTypeOf a.event.value) with
      | error e => simp [h0, bind, Except.bind] at h
      | ok next =>
        cases h1 : next.getProp "spec" with
        | error e => simp [h0, h1, bind, Except.bind] at h
        | ok spec =>
          cases h2 : spec.setProp "x-auth-type" (authTypeOf a.event.value) with
          | error e => simp [h0, h1, h2, bind, Except.bind] at h
          | ok spec2 =>
            simp only [h0, h1, h2, bind, Except.bind] at h
            exact JsValue.setProp_ok_obj _ _ _ _ h
    · rename_i h1 h2
      rcases hact with h3 | h3 | h3
      · exact absurd (Or.inl h3) h1
      · exact absurd (Or.inr h3) h1
      · exact absurd h3 h2

theorem operationActionsDispatcher_returned (st st2 : Editor) (a : OperationAction)
    (h : operationActionsDispatcher st a = some st2) :
    (operationReducer st.operation a).returned = .ok st2.operation := by
  unfold operationActionsDispatcher at h
  cases hr : (operationReducer st.operation a).returned with
  | error e => simp [hr] at h
  | ok next =>
    simp only [hr, Option.some.injEq] at h
    rw [← h]

theorem step_edit_obj (st st2 : Editor) (ev : EditorEvent) (hev : ev.isEdit = true)
    (h : step st ev = some st2) : ∃ ps, st2.operation = .obj ps := by
  cases ev with
  | changeDescription value =>
    have h1 := (dispatch_edit_afterRender st st2 _ (by simp) h).1
    exact operationReducer_edit_obj _ _ _ (Or.inr (Or.inl rfl))
      (operationActionsDispatcher_returned st st2 _ h1)
  | changeSummary value =>
    have h1 := (dispatch_edit_afterRender st st2 _ (by simp) h).1
    exact operationReducer_edit_obj _ _ _ (Or.inl rfl)
      (operationActionsDispatcher_returned st st2 _ h1)
  | switchAuth checked =>
    have h1 := (dispatch_edit_afterRender st st2 _ (by simp) h).1
    exact operationReducer_edit_obj _ _ _ (Or.inr (Or.inr rfl))
      (operationActionsDispatcher_returned st st2 _ h1)
  | propChange v => simp [EditorEvent.isEdit] at hev
  | panelChange e => simp [EditorEvent.isEdit] at hev
  | clickSave => simp [EditorEvent.isEdit] at hev
  | saveResolved => simp [EditorEvent.isEdit] at hev
  | saveRejected => simp [EditorEvent.isEdit] at hev
  | clickReset => simp [EditorEvent.isEdit] at hev

theorem step_dirtyIsObject (st st2 : Editor) (ev : EditorEvent)
    (h : step st ev = some st2) (hinv : st.dirtyIsObject) : st2.dirtyIsObject := by
  intro hdirty
  cases hedit : ev.isEdit with
  | true => exact step_edit_obj st st2 ev hedit h
  | false =>
    cases ev with
    | changeDescription value => simp [EditorEvent.isEdit] at hedit
    | changeSummary value => simp [EditorEvent.isEdit] at hedit
    | switchAuth checked => simp [EditorEvent.isEdit] at hedit
    | propChange v =>
      rw [step_propChange] at h
      simp only [Option.some.injEq] at h
      subst h
      cases hd : st.isNotSaved
      · simp [hd] at hdirty
      · simpa [hd] using hinv hd
    | panelChange e =>
      have hf := handleCollapse_fields st st2 e h
      rw [hf] at hdirty ⊢
      exact hinv hdirty
    | clickSave =>
      simp only [step] at h
      split at h
      · exact absurd h (by simp)
      · simp only [Option.some.injEq] at h
        subst h
        exact hinv hdirty
    | saveResolved =>
      rw [step_isNotSaved_clear st st2 _ h (Or.inl rfl)] at hdirty
      exact absurd hdirty (by decide)
    | saveRejected =>
      cases hp : st.pending with
      | nil => simp [step, hp] at h
      | cons payload rest =>
        simp only [step, hp, Option.some.injEq] at h
        subst h
        exact hinv hdirty
    | clickReset =>
      rw [step_isNotSaved_clear st st2 _ h (Or.inr rfl)] at hdirty
      exact absurd hdirty (by decide)

theorem run_dirtyIsObject : ∀ (evs : List EditorEvent) (st st2 : Editor),
    run st evs = some st2 → st.dirtyIsObject → st2.dirtyIsObject
  | [], st, st2, h, hinv => by
    simp only [run, Option.some.injEq] at h
    rw [← h]
    exact hinv
  | ev :: evs, st, st3, h, hinv => by
    obtain ⟨st2, h1, h2⟩ := run_cons st ev evs st3 h
    exact run_dirtyIsObject evs st2 st3 h2 (step_dirtyIsObject st st2 ev h1 hinv)

theorem reachable_dirtyIsObject (o : JsValue) (evs : List EditorEvent) (st : Editor)
    (h : runFrom o evs = some st) : st.dirtyIsObject := by
  rw [runFrom_eq] at h
  exact run_dirtyIsObject evs _ st h (fun hd => absurd hd (by simp))

/-- C13: in every state reached from a mount and for every value `e` the panel
reports, the handler returns with `e` recorded as the panel state and with the dirty
flag and the snapshot unchanged; it adds the unsaved-changes warning, naming target
and verb of the snapshot, when `e` is false and the flag is true, and adds no warning
otherwise. -/
theorem C13_collapse_warns_but_never_blocks (o : JsValue) (evs : List EditorEvent)
    (st : Editor) (hreach : runFrom o evs = some st) (e : Bool) :
    ∃ st2, step st (.panelChange e) = some st2 ∧
      st2.isCollapsed = e ∧ st2.isNotSaved = st.isNotSaved ∧ st2.operation = st.operation ∧
      ((e = false ∧ st.isNotSaved = true) →
        ∃ ps, st.operation = .obj ps ∧
          st2.warnings = st.warnings ++
            ["Unsaved changes detected in " ++ (ps.lookup "target").toStr ++ " " ++
              (ps.lookup "verb").toStr]) ∧
      (¬(e = false ∧ st.isNotSaved = true) → st2.warnings = st.warnings) := by
  have hobj := reachable_dirtyIsObject o evs st hreach
  by_cases hw : e = false ∧ st.isNotSaved = true
  · obtain ⟨ps, hps⟩ := hobj hw.2
    refine ⟨{ st with
        warnings := st.warnings ++
          ["Unsaved changes detected in " ++ (ps.lookup "target").toStr ++ " " ++
            (ps.lookup "verb").toStr]
        isCollapsed := e }, ?_, rfl, rfl, rfl, fun _ => ⟨ps, hps, rfl⟩,
      fun hn => absurd hw hn⟩
    simp [step, handleCollapse, hw.1, hw.2, hps, JsValue.getProp]
  · refine ⟨{ st with isCollapsed := e }, ?_, rfl, rfl, rfl, fun h => absurd h hw, fun _ => rfl⟩
    have : (!e && st.isNotSaved) = false := by
      cases e <;> cases hd : st.isNotSaved <;> simp_all
    simp [step, handleCollapse, this]

theorem C13_witness :
    ∃ st2,
      step { petsMounted with operation := petsWithSummary "List pets", isNotSaved := true }
        (.panelChange false) = some st2 ∧
      st2.isCollapsed = false ∧ st2.isNotSaved = true ∧
      st2.operation = petsWithSummary "List pets" ∧
      ((false = false ∧ true = true) →
        ∃ ps, petsWithSummary "List pets" = .obj ps ∧
          st2.warnings = [] ++
            ["Unsaved changes detected in " ++ (ps.lookup "target").toStr ++ " " ++
              (ps.lookup "verb").toStr]) ∧
      (¬(false = false ∧ true = true) → st2.warnings = []) :=
  C13_collapse_warns_but_never_blocks petsOperation [.changeSummary "List pets"]
    { petsMounted with operation := petsWithSummary "List pets", isNotSaved := true }
    (by decide) false

/-- A run of edits writes only the snapshot and the dirty flag, and a run of at
least one edit leaves the flag true. -/
theorem run_edits_fields : ∀ (evs : List EditorEvent) (st st2 : Editor),
    (∀ e ∈ evs, EditorEvent.isEdit e = true) → run st evs = some st2 →
    st2 = { st with operation := st2.operation, isNotSaved := st2.isNotSaved } ∧
      (evs ≠ [] → st2.isNotSaved = true)
  | [], st, st2, _, h => by
    simp only [run, Option.some.injEq] at h
    subst h
    exact ⟨rfl, fun hne => absurd rfl hne⟩
  | ev :: evs, st, st3, hed, h => by
    obtain ⟨st2, h1, h2⟩ := run_cons st ev evs st3 h
    have hev : EditorEvent.isEdit ev = true := hed ev (List.mem_cons_self _ _)
    have hstep := step_edit st st2 ev hev h1
    obtain ⟨hrest, hflag⟩ :=
      run_edits_fields evs st2 st3 (fun e he => hed e (List.mem_cons_of_mem _ he)) h2
    refine ⟨?_, fun _ => ?_⟩
    · rw [hrest, hstep]
    · cases evs with
      | nil =>
        simp only [run, Option.some.injEq] at h2
        rw [← h2, hstep]
      | cons e2 rest => exact hflag (by simp)

/-- C16: when a save resolves while the dirty flag is true, the flag becomes false
and the accepting effect replaces the snapshot with the current `operation` prop;
in particular, after a mount on `o` and one or more edits giving snapshot `s`, Save
followed by the resolution of its promise leaves the snapshot equal to `o`, which is
not `s` when the two differ. -/
theorem C16_resolved_save_reverts_to_prop (o : JsValue) (evs : List EditorEvent)
    (stm : Editor) (hedits : ∀ e ∈ evs, EditorEvent.isEdit e = true) (hne : evs ≠ [])
    (hrun : runFrom o evs = some stm) :
    (∃ st1 st2, step stm .clickSave = some st1 ∧ st1.pending = [stm.operation] ∧
      step st1 .saveResolved = some st2 ∧
      st2.operation = o ∧ st2.isNotSaved = false ∧ st2.lastSaved = some stm.operation ∧
      (stm.operation ≠ o → st2.operation ≠ stm.operation)) ∧
    (∀ (st : Editor) (s : JsValue) (rest : List JsValue),
      st.pending = s :: rest → st.isNotSaved = true →
      ∃ st2, step st .saveResolved = some st2 ∧ st2.isNotSaved = false ∧
        st2.operation = st.initOperation ∧ st2.lastSaved = some s) := by
  constructor
  · rw [runFrom_eq] at hrun
    obtain ⟨hf, hd⟩ := run_edits_fields evs _ stm hedits hrun
    have hdirty := hd hne
    have hinit : stm.initOperation = o := by rw [hf]
    have hidle : stm.isSaving = false := by rw [hf]
    have hpend : stm.pending = [] := by rw [hf]
    have hp1 : (saveChanges stm).pending = stm.operation :: [] := by simp [saveChanges, hpend]
    have hd1 : (saveChanges stm).isNotSaved = true := hdirty
    refine ⟨saveChanges stm, _, by simp [step_clickSave, hidle], hp1,
      step_saveResolved (saveChanges stm) stm.operation [] hp1, ?_, ?_, ?_, ?_⟩
    · simp [hdirty, saveChanges, hinit]
    · simp [hdirty, saveChanges]
    · simp [hdirty, saveChanges]
    · intro hso
      simpa [hdirty, saveChanges, hinit] using Ne.symm hso
  · intro st s rest hp hdirty
    refine ⟨_, step_saveResolved st s rest hp, ?_, ?_, ?_⟩ <;> simp [hdirty]

theorem C16_witness :
    (∃ st1 st2,
      step { petsMounted with operation := petsWithSummary "List pets", isNotSaved := true }
        .clickSave = some st1 ∧
      st1.pending = [petsWithSummary "List pets"] ∧
      step st1 .saveResolved = some st2 ∧
      st2.operation = petsOperation ∧ st2.isNotSaved = false ∧
      st2.lastSaved = some (petsWithSummary "List pets") ∧
      (petsWithSummary "List pets" ≠ petsOperation →
        st2.operation ≠ petsWithSummary "List pets")) ∧
    petsWithSummary "List pets" ≠ petsOperation :=
  ⟨(C16_resolved_save_reverts_to_prop petsOperation [.changeSummary "List pets"]
      { petsMounted with operation := petsWithSummary "List pets", isNotSaved := true }
      (by decide) (by decide) (by decide)).1,
   by decide⟩

/-! ## Edit actions: last write wins, and they commute -/

theorem JsProps.lookup_assign (ps : JsProps) (key other : String) (val : JsValue) :
    (ps.assign key val).lookup other = if other = key then val else ps.lookup other := by
  by_cases h : other = key
  · subst h
    simp [JsProps.lookup_assign_same]
  · simp [h, JsProps.lookup_assign_other _ _ _ _ h]

theorem JsProps.has_assign : ∀ (ps : JsProps) (key other : String) (val : JsValue),
    (ps.assign key val).has other = (other == key || ps.has other)
  | .nil, key, other, val => by
    simp only [JsProps.assign, JsProps.has, Bool.or_false]
    exact Bool.beq_comm
  | .cons k v rest, key, other, val => by
    have hc : (other == key) = (key == other) := Bool.beq_comm
    by_cases h : k = key
    · subst h
      simp only [JsProps.assign, if_true, JsProps.has, hc]
      cases (k == other) <;> simp
    · simp only [JsProps.assign, h, if_false, JsProps.has,
        JsProps.has_assign rest key other val, hc]
      cases (k == other) <;> cases (key == other) <;> simp

theorem JsProps.assign_assign_same : ∀ (ps : JsProps) (key : String) (a b : JsValue),
    (ps.assign key a).assign key b = ps.assign key b
  | .nil, key, a, b => by simp [JsProps.assign]
  | .cons k v rest, key, a, b => by
    by_cases h : k = key
    · simp [JsProps.assign, h]
    · simp [JsProps.assign, h, JsProps.assign_assign_same rest key a b]

/-- Two writes under different keys give the same object in either order when the
first key is already there. -/
theorem JsProps.assign_comm_of_has : ∀ (ps : JsProps) (k1 k2 : String) (a b : JsValue),
    k1 ≠ k2 → ps.has k1 = true →
    (ps.assign k1 a).assign k2 b = (ps.assign k2 b).assign k1 a
  | .nil, k1, k2, a, b, _, hhas => by simp [JsProps.has] at hhas
  | .cons k v rest, k1, k2, a, b, hne, hhas => by
    by_cases h1 : k = k1
    · subst h1
      simp [JsProps.assign, hne]
    · by_cases h2 : k = k2
      · subst h2
        simp [JsProps.assign, h1]
      · have hrest : rest.has k1 = true := by
          simpa [JsProps.has, h1] using hhas
        simp [JsProps.assign, h1, h2, JsProps.assign_comm_of_has rest k1 k2 a b hne hrest]

theorem JsProps.has_of_lookup_obj : ∀ (ps : JsProps) (key : String) (sp : JsProps),
    ps.lookup key = .obj sp → ps.has key = true
  | .nil, key, sp, h => by simp [JsProps.lookup] at h
  | .cons k v rest, key, sp, h => by
    by_cases hk : k = key
    · simp [JsProps.has, hk]
    · simp only [JsProps.lookup, hk, if_false] at h
      simp [JsProps.has, hk, JsProps.has_of_lookup_obj rest key sp h]

/-- Two writes under different keys give the same mapping in either order. -/
theorem JsProps.sameFields_assign_comm (ps : JsProps) (k1 k2 : String) (a b : JsValue)
    (hne : k1 ≠ k2) :
    ((ps.assign k1 a).assign k2 b).sameFields ((ps.assign k2 b).assign k1 a) := by
  intro k
  constructor
  · simp only [JsProps.has_assign]
    cases (k == k1) <;> cases (k == k2) <;> simp
  · simp only [JsProps.lookup_assign]
    by_cases h1 : k = k1
    · subst h1
      simp [hne]
    · simp [h1]

theorem reduceTwice_text_text (ps sp : JsProps) (first second : String)
    (e1 e2 : OperationEvent) (hspec : ps.lookup "spec" = .obj sp)
    (h1 : first = "summary" ∨ first = "description")
    (h2 : second = "summary" ∨ second = "description") :
    reduceTwice (.obj ps) ⟨first, e1⟩ ⟨second, e2⟩ =
      .ok (.obj (ps.assign "spec"
        (.obj ((sp.assign first e1.value).assign second e2.value)))) := by
  unfold reduceTwice
  rw [operationReducer_text ps sp first e1 hspec h1]
  simp only
  rw [operationReducer_text _ (sp.assign first e1.value) second e2
    (JsProps.lookup_assign_same _ _ _) h2, JsProps.assign_assign_same]

theorem reduceTwice_text_auth (ps sp : JsProps) (first : String)
    (e1 e2 : OperationEvent) (hspec : ps.lookup "spec" = .obj sp)
    (h1 : first = "summary" ∨ first = "description") :
    reduceTwice (.obj ps) ⟨first, e1⟩ ⟨"authType", e2⟩ =
      .ok (.obj ((ps.assign "authType" (authTypeOf e2.value)).assign "spec"
        (.obj ((sp.assign first e1.value).assign "x-auth-type" (authTypeOf e2.value))))) := by
  unfold reduceTwice
  rw [operationReducer_text ps sp first e1 hspec h1]
  simp only
  rw [operationReducer_authType _ (sp.assign first e1.value) e2
    (JsProps.lookup_assign_same _ _ _)]
  rw [JsProps.assign_comm_of_has ps "spec" "authType" _ _ (by decide)
    (JsProps.has_of_lookup_obj ps "spec" sp hspec), JsProps.assign_assign_same]

theorem reduceTwice_auth_text (ps sp : JsProps) (second : String)
    (e1 e2 : OperationEvent) (hspec : ps.lookup "spec" = .obj sp)
    (h2 : second = "summary" ∨ second = "description") :
    reduceTwice (.obj ps) ⟨"authType", e1⟩ ⟨second, e2⟩ =
      .ok (.obj ((ps.assign "authType" (authTypeOf e1.value)).assign "spec"
        (.obj ((sp.assign "x-auth-type" (authTypeOf e1.value)).assign second e2.value)))) := by
  unfold reduceTwice
  rw [operationReducer_authType ps sp e1 hspec]
  simp only
  rw [operationReducer_text _ (sp.assign "x-auth-type" (authTypeOf e1.value)) second e2
    (JsProps.lookup_assign_same _ _ _) h2, JsProps.assign_assign_same]

theorem reduceTwice_auth_auth (ps sp : JsProps) (e1 e2 : OperationEvent)
    (hspec : ps.lookup "spec" = .obj sp) :
    reduceTwice (.obj ps) ⟨"authType", e1⟩ ⟨"authType", e2⟩ =
      (operationReducer (.obj ps) ⟨"authType", e2⟩).returned := by
  unfold reduceTwice
  rw [operationReducer_authType ps sp e1 hspec, operationReducer_authType ps sp e2 hspec]
  simp only
  rw [operationReducer_authType _ (sp.assign "x-auth-type" (authTypeOf e1.value)) e2
    (JsProps.lookup_assign_same _ _ _)]
  have hhas : (ps.assign "authType" (authTypeOf e1.value)).has "authType" = true := by
    simp [JsProps.has_assign]
  rw [← JsProps.assign_comm_of_has _ "authType" "spec" _ _ (by decide) hhas,
    JsProps.assign_assign_same, JsProps.assign_assign_same, JsProps.assign_assign_same]

/-- Snapshots that differ only in the order of two writes to `spec` are the same
mapping. -/
theorem sameSnapshot_of_spec_comm (top : JsProps) (sp : JsProps) (k1 k2 : String)
    (a b : JsValue) (hne : k1 ≠ k2) :
    sameSnapshot
      (.obj (top.assign "spec" (.obj ((sp.assign k1 a).assign k2 b))))
      (.obj (top.assign "spec" (.obj ((sp.assign k2 b).assign k1 a)))) := by
  refine ⟨_, _, _, _, rfl, rfl, JsProps.lookup_assign_same _ _ _,
    JsProps.lookup_assign_same _ _ _, JsProps.sameFields_assign_comm sp k1 k2 a b hne, ?_⟩
  intro k
  refine ⟨by simp [JsProps.has_assign], fun hk => ?_⟩
  simp [JsProps.lookup_assign, hk]

/-- C17: on a snapshot with a spec mapping, two summary actions in a row give what
the second alone gives, likewise two description actions and two authType actions;
a summary action and a description action give the same mapping in either order, and
so do each of them and an authType action (the same association list, too, when spec
already has one of the two keys written). -/
theorem C17_edits_last_write_wins_and_commute (s : JsValue) (ps sp : JsProps)
    (e1 e2 : OperationEvent) (hs : s = .obj ps) (hspec : ps.lookup "spec" = .obj sp) :
    reduceTwice s ⟨"summary", e1⟩ ⟨"summary", e2⟩ =
      (operationReducer s ⟨"summary", e2⟩).returned ∧
    reduceTwice s ⟨"description", e1⟩ ⟨"description", e2⟩ =
      (operationReducer s ⟨"description", e2⟩).returned ∧
    reduceTwice s ⟨"authType", e1⟩ ⟨"authType", e2⟩ =
      (operationReducer s ⟨"authType", e2⟩).returned ∧
    (∃ r1 r2, reduceTwice s ⟨"summary", e1⟩ ⟨"description", e2⟩ = .ok r1 ∧
      reduceTwice s ⟨"description", e2⟩ ⟨"summary", e1⟩ = .ok r2 ∧ sameSnapshot r1 r2 ∧
      (sp.has "summary" = true → r1 = r2)) ∧
    (∃ r1 r2, reduceTwice s ⟨"summary", e1⟩ ⟨"authType", e2⟩ = .ok r1 ∧
      reduceTwice s ⟨"authType", e2⟩ ⟨"summary", e1⟩ = .ok r2 ∧ sameSnapshot r1 r2 ∧
      (sp.has "summary" = true → r1 = r2)) ∧
    (∃ r1 r2, reduceTwice s ⟨"description", e1⟩ ⟨"authType", e2⟩ = .ok r1 ∧
      reduceTwice s ⟨"authType", e2⟩ ⟨"description", e1⟩ = .ok r2 ∧ sameSnapshot r1 r2 ∧
      (sp.has "description" = true → r1 = r2)) := by
  subst hs
  refine ⟨?_, ?_, ?_, ?_, ?_, ?_⟩
  · rw [reduceTwice_text_text ps sp _ _ e1 e2 hspec (Or.inl rfl) (Or.inl rfl),
      operationReducer_text ps sp _ e2 hspec (Or.inl rfl), JsProps.assign_assign_same]
  · rw [reduceTwice_text_text ps sp _ _ e1 e2 hspec (Or.inr rfl) (Or.inr rfl),
      operationReducer_text ps sp _ e2 hspec (Or.inr rfl), JsProps.assign_assign_same]
  · exact reduceTwice_auth_auth ps sp e1 e2 hspec
  · refine ⟨_, _, reduceTwice_text_text ps sp _ _ e1 e2 hspec (Or.inl rfl) (Or.inr rfl),
      reduceTwice_text_text ps sp _ _ e2 e1 hspec (Or.inr rfl) (Or.inl rfl),
      sameSnapshot_of_spec_comm ps sp _ _ _ _ (by decide), fun hhas => ?_⟩
    rw [JsProps.assign_comm_of_has sp "summary" "description" _ _ (by decide) hhas]
  · refine ⟨_, _, reduceTwice_text_auth ps sp _ e1 e2 hspec (Or.inl rfl),
      reduceTwice_auth_text ps sp _ e2 e1 hspec (Or.inl rfl),
      sameSnapshot_of_spec_comm _ sp _ _ _ _ (by decide), fun hhas => ?_⟩
    rw [JsProps.assign_comm_of_has sp "summary" "x-auth-type" _ _ (by decide) hhas]
  · refine ⟨_, _, reduceTwice_text_auth ps sp _ e1 e2 hspec (Or.inr rfl),
      reduceTwice_auth_text ps sp _ e2 e1 hspec (Or.inr rfl),
      sameSnapshot_of_spec_comm _ sp _ _ _ _ (by decide), fun hhas => ?_⟩
    rw [JsProps.assign_comm_of_has sp "description" "x-auth-type" _ _ (by decide) hhas]

theorem C17_witness :
    reduceTwice petsOperation ⟨"summary", ⟨.undefined, .str "a"⟩⟩
        ⟨"summary", ⟨.undefined, .str "b"⟩⟩ =
      (operationReducer petsOperation ⟨"summary", ⟨.undefined, .str "b"⟩⟩).returned ∧
    ∃ r1 r2,
      reduceTwice petsOperation ⟨"summary", ⟨.undefined, .str "a"⟩⟩
        ⟨"authType", ⟨.undefined, .bool true⟩⟩ = .ok r1 ∧
      reduceTwice petsOperation ⟨"authType", ⟨.undefined, .bool true⟩⟩
        ⟨"summary", ⟨.undefined, .str "a"⟩⟩ = .ok r2 ∧
      sameSnapshot r1 r2 ∧
      ((JsProps.cons "summary" (.str "") (.cons "description" (.str "") .nil)).has "summary" =
        true → r1 = r2) :=
  ⟨(C17_edits_last_write_wins_and_commute petsOperation _ _ ⟨.undefined, .str "a"⟩
      ⟨.undefined, .str "b"⟩ rfl rfl).1,
   (C17_edits_last_write_wins_and_commute petsOperation _ _ ⟨.undefined, .str "a"⟩
      ⟨.undefined, .bool true⟩ rfl rfl).2.2.2.2.1⟩

/-! ## The add-operation form -/

theorem runAdd_cons (st : AddForm) (ev : AddFormEvent) (evs : List AddFormEvent)
    (st3 : AddForm) (h : runAdd st (ev :: evs) = some st3) :
    ∃ st2, stepAdd st ev = some st2 ∧ runAdd st2 evs = some st3 := by
  simpa [runAdd, Option.bind_eq_some] using h

theorem stepAdd_addingCoversPending (st st2 : AddForm) (ev : AddFormEvent)
    (h : stepAdd st ev = some st2) (hinv : st.addingCoversPending) :
    st2.addingCoversPending := by
  cases ev with
  | inputChange name value =>
    simp only [stepAdd, Option.some.injEq] at h
    subst h
    exact hinv
  | clickAdd =>
    rcases hinv with ⟨hidle, hp⟩ | ⟨hbusy, _⟩
    · simp only [stepAdd, hidle, Bool.false_eq_true, if_false, Option.some.injEq] at h
      subst h
      exact Or.inr ⟨rfl, by simp [addOperation, hp]⟩
    · simp [stepAdd, hbusy] at h
  | clickClear =>
    rcases hinv with ⟨hidle, hp⟩ | ⟨hbusy, _⟩
    · simp only [stepAdd, hidle, Bool.false_eq_true, if_false, Option.some.injEq] at h
      subst h
      exact Or.inl ⟨hidle, hp⟩
    · simp [stepAdd, hbusy] at h
  | addResolved =>
    cases hp : st.pending with
    | nil => simp [stepAdd, hp] at h
    | cons payload rest =>
      simp only [stepAdd, hp, Option.some.injEq] at h
      subst h
      rcases hinv with ⟨_, hp2⟩ | ⟨_, hlen⟩
      · rw [hp] at hp2
        exact absurd hp2 (by simp)
      · rw [hp] at hlen
        have hrest : rest = [] := by
          cases rest with
          | nil => rfl
          | cons a b => simp at hlen
        exact Or.inl ⟨rfl, hrest⟩
  | addRejected =>
    cases hp : st.pending with
    | nil => simp [stepAdd, hp] at h
    | cons payload rest =>
      simp only [stepAdd, hp, Option.some.injEq] at h
      subst h
      rcases hinv with ⟨_, hp2⟩ | ⟨hbusy, hlen⟩
      · rw [hp] at hp2
        exact absurd hp2 (by simp)
      · rw [hp] at hlen
        exact Or.inr ⟨hbusy, by simp at hlen; simp [hlen]⟩

theorem runAdd_addingCoversPending : ∀ (evs : List AddFormEvent) (st st2 : AddForm),
    runAdd st evs = some st2 → st.addingCoversPending → st2.addingCoversPending
  | [], st, st2, h, hinv => by
    simp only [runAdd, Option.some.injEq] at h
    rw [← h]
    exact hinv
  | ev :: evs, st, st3, h, hinv => by
    obtain ⟨st2, h1, h2⟩ := runAdd_cons st ev evs st3 h
    exact runAdd_addingCoversPending evs st2 st3 h2
      (stepAdd_addingCoversPending st st2 ev h1 hinv)

/-- While the form is adding, a run without a resolution keeps it adding; without
any settling event it also keeps the outstanding promises. -/
theorem runAdd_stays_adding : ∀ (evs : List AddFormEvent) (st st2 : AddForm),
    runAdd st evs = some st2 → st.isAdding = true →
    (∀ e ∈ evs, e ≠ AddFormEvent.addResolved) →
    st2.isAdding = true ∧
      ((∀ e ∈ evs, e ≠ AddFormEvent.addRejected) → st2.pending = st.pending)
  | [], st, st2, h, hbusy, _ => by
    simp only [runAdd, Option.some.injEq] at h
    rw [← h]
    exact ⟨hbusy, fun _ => rfl⟩
  | ev :: evs, st, st3, h, hbusy, hno => by
    obtain ⟨st2, h1, h2⟩ := runAdd_cons st ev evs st3 h
    have hrest : ∀ e ∈ evs, e ≠ AddFormEvent.addResolved :=
      fun e he => hno e (List.mem_cons_of_mem _ he)
    cases ev with
    | inputChange name value =>
      simp only [stepAdd, Option.some.injEq] at h1
      subst h1
      obtain ⟨g1, g2⟩ := runAdd_stays_adding evs _ st3 h2 hbusy hrest
      exact ⟨g1, fun hrej => g2 (fun e he => hrej e (List.mem_cons_of_mem _ he))⟩
    | clickAdd => simp [stepAdd, hbusy] at h1
    | clickClear => simp [stepAdd, hbusy] at h1
    | addResolved => exact absurd rfl (hno _ (List.mem_cons_self _ _))
    | addRejected =>
      cases hp : st.pending with
      | nil => simp [stepAdd, hp] at h1
      | cons payload rest =>
        simp only [stepAdd, hp, Option.some.injEq] at h1
        subst h1
        obtain ⟨g1, _⟩ := runAdd_stays_adding evs _ st3 h2 hbusy hrest
        exact ⟨g1, fun hrej => absurd rfl (hrej _ (List.mem_cons_self _ _))⟩

/-- Once the form is adding and no promise is outstanding, it stays adding. -/
theorem runAdd_stuck : ∀ (evs : List AddFormEvent) (st st2 : AddForm),
    runAdd st evs = some st2 → st.isAdding = true → st.pending = [] →
    st2.isAdding = true ∧ st2.pending = []
  | [], st, st2, h, hbusy, hp => by
    simp only [runAdd, Option.some.injEq] at h
    rw [← h]
    exact ⟨hbusy, hp⟩
  | ev :: evs, st, st3, h, hbusy, hp => by
    obtain ⟨st2, h1, h2⟩ := runAdd_cons st ev evs st3 h
    cases ev with
    | inputChange name value =>
      simp only [stepAdd, Option.some.injEq] at h1
      subst h1
      exact runAdd_stuck evs _ st3 h2 hbusy hp
    | clickAdd => simp [stepAdd, hbusy] at h1
    | clickClear => simp [stepAdd, hbusy] at h1
    | addResolved => simp [stepAdd, hp] at h1
    | addRejected => simp [stepAdd, hp] at h1

/-- C18: in a state of the add-operation form reached from its first render with
`isAdding` false, the add button sets `isAdding` and adds one call
`updateOpenAPI("add", operation)`; until that promise resolves `isAdding` stays true;
its resolution returns with `isAdding` false and the inputs reset to
`target: ""`, `verb: null`; its rejection leaves `isAdding` true and the form
operation as it was, and from then on `isAdding` is true for good, with the add and
clear buttons disabled. -/
theorem C18_add_resets_only_on_resolution (evs0 : List AddFormEvent) (st : AddForm)
    (hreach : runAdd AddForm.initial evs0 = some st) (hidle : st.isAdding = false) :
    ∃ st1, stepAdd st .clickAdd = some st1 ∧ st1.isAdding = true ∧
      st1.updateOpenAPICalls = st.updateOpenAPICalls ++ [("add", .obj st.operation)] ∧
      st1.operation = st.operation ∧
      ∀ evs stm, runAdd st1 evs = some stm →
        (∀ e ∈ evs, e ≠ AddFormEvent.addResolved ∧ e ≠ AddFormEvent.addRejected) →
        stm.isAdding = true ∧
        (∃ s2, stepAdd stm .addResolved = some s2 ∧ s2.isAdding = false ∧
          s2.operation = .cons "target" (.str "") (.cons "verb" .null .nil)) ∧
        (∃ s2, stepAdd stm .addRejected = some s2 ∧ s2.isAdding = true ∧
          s2.operation = stm.operation ∧
          stepAdd s2 .clickAdd = none ∧ stepAdd s2 .clickClear = none ∧
          ∀ evs2 s3, runAdd s2 evs2 = some s3 → s3.isAdding = true) := by
  have hp : st.pending = [] := by
    rcases runAdd_addingCoversPending evs0 _ st hreach (Or.inl ⟨rfl, rfl⟩) with
      ⟨_, hp⟩ | ⟨hbusy, _⟩
    · exact hp
    · rw [hidle] at hbusy
      exact absurd hbusy (by decide)
  refine ⟨addOperation st, by simp [stepAdd, hidle], rfl, rfl, rfl, ?_⟩
  intro evs stm hrun hno
  obtain ⟨g1, g2⟩ := runAdd_stays_adding evs (addOperation st) stm hrun rfl
    (fun e he => (hno e he).1)
  have hpm : stm.pending = [JsValue.obj st.operation] := by
    rw [g2 (fun e he => (hno e he).2)]
    simp [addOperation, hp]
  refine ⟨g1, ⟨{ clearInputs stm with isAdding := false, pending := [] }, ?_, rfl, rfl⟩,
    ⟨{ stm with pending := [] }, ?_, g1, rfl, ?_, ?_, ?_⟩⟩
  · simp only [stepAdd, hpm]
  · simp only [stepAdd, hpm]
  · simp [stepAdd, g1]
  · simp [stepAdd, g1]
  · intro evs2 s3 h3
    exact (runAdd_stuck evs2 { stm with pending := [] } s3 h3 g1 rfl).1

theorem C18_witness :
    ∃ st1,
      stepAdd { AddForm.initial with
          operation := .cons "verb" (.str "get") (.cons "target" (.str "/pets") .nil) }
        .clickAdd = some st1 ∧
      st1.isAdding = true ∧
      st1.updateOpenAPICalls = [] ++
        [("add", .obj (.cons "verb" (.str "get") (.cons "target" (.str "/pets") .nil)))] ∧
      st1.operation = .cons "verb" (.str "get") (.cons "target" (.str "/pets") .nil) ∧
      ∀ evs stm, runAdd st1 evs = some stm →
        (∀ e ∈ evs, e ≠ AddFormEvent.addResolved ∧ e ≠ AddFormEvent.addRejected) →
        stm.isAdding = true ∧
        (∃ s2, stepAdd stm .addResolved = some s2 ∧ s2.isAdding = false ∧
          s2.operation = .cons "target" (.str "") (.cons "verb" .null .nil)) ∧
        (∃ s2, stepAdd stm .addRejected = some s2 ∧ s2.isAdding = true ∧
          s2.operation = stm.operation ∧
          stepAdd s2 .clickAdd = none ∧ stepAdd s2 .clickClear = none ∧
          ∀ evs2 s3, runAdd s2 evs2 = some s3 → s3.isAdding = true) :=
  C18_add_resets_only_on_resolution
    [.inputChange "verb" "get", .inputChange "target" "/pets"]
    { AddForm.initial with
      operation := .cons "verb" (.str "get") (.cons "target" (.str "/pets") .nil) }
    (by decide) rfl

/-! ## The storefront: applications not yet subscribed -/

theorem subscribedAppLoop_eq (application : JsProps) :
    ∀ (subscriptions : List JsProps) (subscribedApp : Bool),
      subscribedAppLoop application subscriptions subscribedApp =
        (subscribedApp || isSubscribed subscriptions application)
  | [], subscribedApp => by simp [subscribedAppLoop, isSubscribed]
  | subscription :: rest, subscribedApp => by
    have ih := subscribedAppLoop_eq application rest
    simp only [isSubscribed] at ih
    by_cases h : (subscription.lookup "applicationId").strictEq
        (application.lookup "applicationId") = true
    · simp [subscribedAppLoop, isSubscribed, h, ih]
    · simp [subscribedAppLoop, isSubscribed, h, ih]

theorem availableApplicationsLoop_eq (subscriptions : List JsProps) :
    ∀ (applications acc : List JsProps),
      availableApplicationsLoop subscriptions applications acc =
        acc ++ applications.filter (fun a => !isSubscribed subscriptions a)
  | [], acc => by simp [availableApplicationsLoop]
  | application :: rest, acc => by
    simp only [availableApplicationsLoop, subscribedAppLoop_eq, Bool.false_or]
    cases h : isSubscribed subscriptions application
    · simp [availableApplicationsLoop_eq subscriptions rest, List.filter_cons, h]
    · simp [availableApplicationsLoop_eq subscriptions rest, List.filter_cons, h]

/-- C14: the list rendered into the application drop-down is the list of
applications filtered by "no subscription has this `applicationId`": it is a sublist
of the applications (original order), an application is in it exactly when it is in
the input and not subscribed, and a not subscribed application occurs in it as often
as in the input. -/
theorem C14_available_applications_are_the_unsubscribed
    (applications subscriptions : List JsProps) :
    availableApplications applications subscriptions =
      applications.filter (fun a => !isSubscribed subscriptions a) ∧
    (availableApplications applications subscriptions).Sublist applications ∧
    (∀ a, a ∈ availableApplications applications subscriptions ↔
      a ∈ applications ∧ ∀ s ∈ subscriptions,
        (JsProps.lookup s "applicationId").strictEq (a.lookup "applicationId") = false) ∧
    (∀ a, isSubscribed subscriptions a = false →
      (availableApplications applications subscriptions).count a = applications.count a) ∧
    (∀ a, isSubscribed subscriptions a = true →
      (availableApplications applications subscriptions).count a = 0) := by
  have heq : availableApplications applications subscriptions =
      applications.filter (fun a => !isSubscribed subscriptions a) := by
    simp [availableApplications, availableApplicationsLoop_eq]
  refine ⟨heq, ?_, ?_, ?_, ?_⟩
  · rw [heq]
    exact List.filter_sublist _
  · intro a
    rw [heq, List.mem_filter]
    simp [isSubscribed]
  · intro a ha
    rw [heq, List.count_filter]
    simp [ha]
  · intro a ha
    rw [heq, List.count_eq_zero]
    intro hmem
    rw [List.mem_filter] at hmem
    simp [ha] at hmem

theorem C14_witness :
    availableApplications
        [.cons "applicationId" (.str "a1") (.cons "name" (.str "Default") .nil),
         .cons "applicationId" (.str "a2") (.cons "name" (.str "Mobile") .nil),
         .cons "applicationId" (.str "a3") (.cons "name" (.str "Web") .nil)]
        [.cons "subscriptionId" (.str "s1") (.cons "applicationId" (.str "a2") .nil)] =
      [.cons "applicationId" (.str "a1") (.cons "name" (.str "Default") .nil),
       .cons "applicationId" (.str "a3") (.cons "name" (.str "Web") .nil)] :=
  (C14_available_applications_are_the_unsubscribed _ _).1.trans (by decide)

/-! ## The storefront: environment URLs of the overview tab -/

theorem startsWithChars_iff : ∀ (text pattern : List Char),
    startsWithChars text pattern = true ↔ ∃ rest, text = pattern ++ rest
  | text, [] => by simp [startsWithChars]
  | [], p :: pattern => by simp [startsWithChars]
  | c :: text, p :: pattern => by
    simp only [startsWithChars, Bool.and_eq_true, beq_iff_eq, startsWithChars_iff text pattern,
      List.cons_append, List.cons.injEq]
    constructor
    · rintro ⟨h1, rest, h2⟩
      exact ⟨rest, h1, h2⟩
    · rintro ⟨rest, h1, h2⟩
      exact ⟨h1, rest, h2⟩

/-- A text in which the pattern does not occur is returned as it is. -/
theorem replaceFirstChars_absent (pattern replacement : List Char) :
    ∀ text : List Char, (∀ before after, text ≠ before ++ pattern ++ after) →
      replaceFirstChars pattern replacement text = text
  | [], hno => by
    have h : startsWithChars [] pattern = false := by
      cases hs : startsWithChars [] pattern with
      | false => rfl
      | true =>
        obtain ⟨rest, hr⟩ := (startsWithChars_iff [] pattern).1 hs
        exact absurd (by simpa using hr) (hno [] rest)
    simp [replaceFirstChars, h]
  | c :: text, hno => by
    have h : startsWithChars (c :: text) pattern = false := by
      cases hs : startsWithChars (c :: text) pattern with
      | false => rfl
      | true =>
        obtain ⟨rest, hr⟩ := (startsWithChars_iff (c :: text) pattern).1 hs
        exact absurd (by simpa using hr) (hno [] rest)
    have ih := replaceFirstChars_absent pattern replacement text (by
      intro before after heq
      exact hno (c :: before) after (by simp [heq]))
    simp [replaceFirstChars, h, ih]

/-- The first occurrence of the pattern is the one replaced. -/
theorem replaceFirstChars_first (pattern replacement : List Char) :
    ∀ (before after text : List Char), text = before ++ pattern ++ after →
      (∀ before2 after2, text = before2 ++ pattern ++ after2 →
        before.length ≤ before2.length) →
      replaceFirstChars pattern replacement text = before ++ replacement ++ after
  | [], after, text, heq, _ => by
    have hs : startsWithChars text pattern = true :=
      (startsWithChars_iff text pattern).2 ⟨after, by simpa using heq⟩
    cases text with
    | nil =>
      have hp : pattern = [] ∧ after = [] := by simpa using heq.symm
      simp [replaceFirstChars, hs, hp.2]
    | cons c rest =>
      simp only [replaceFirstChars, hs, if_true, List.nil_append]
      rw [heq]
      simp
  | b :: before, after, text, heq, hmin => by
    subst heq
    have hs : startsWithChars (b :: before ++ pattern ++ after) pattern = false := by
      cases hs : startsWithChars (b :: before ++ pattern ++ after) pattern with
      | false => rfl
      | true =>
        obtain ⟨rest, hr⟩ := (startsWithChars_iff _ pattern).1 hs
        have := hmin [] rest (by simpa using hr)
        simp at this
    have ih := replaceFirstChars_first pattern replacement before after
      (before ++ pattern ++ after) rfl (by
        intro before2 after2 h2
        have := hmin (b :: before2) after2 (by simp [h2])
        simpa using this)
    simp only [List.cons_append, List.append_assoc] at hs ih ⊢
    simp [replaceFirstChars, hs, ih]

theorem jsReplace_data (text pattern replacement : String) :
    (jsReplace text pattern replacement).data =
      replaceFirstChars pattern.data replacement.data text.data := rfl

/-- C19: the overview branch replaces every environment URL `u` of every endpoint by
`[u]` when the API is not the default version and by `[u, u2]` when it is, where
`u2` is `u.replace(version, "")`: `u` itself when the version does not occur in it,
and otherwise `u` without the first occurrence of the version, a slash that follows
that occurrence being kept. -/
theorem C19_environment_urls_of_default_version (api : Api) :
    overviewEndpointURLs api =
      api.endpointURLs.map (fun endpoint =>
        (endpoint.1, endpoint.2.map fun environment =>
          (environment.1,
            if api.isDefaultVersion then
              [environment.2, jsReplace environment.2 api.version ""]
            else [environment.2]))) ∧
    (∀ u : String, (∀ before after, u.data ≠ before ++ api.version.data ++ after) →
      jsReplace u api.version "" = u) ∧
    (∀ (u : String) (before after : List Char), u.data = before ++ api.version.data ++ after →
      (∀ before2 after2, u.data = before2 ++ api.version.data ++ after2 →
        before.length ≤ before2.length) →
      (jsReplace u api.version "").data = before ++ after) ∧
    (∀ (u : String) (before after : List Char),
      u.data = before ++ api.version.data ++ '/' :: after →
      (∀ before2 after2, u.data = before2 ++ api.version.data ++ after2 →
        before.length ≤ before2.length) →
      (jsReplace u api.version "").data = before ++ '/' :: after) := by
  have hfirst : ∀ (u : String) (before after : List Char),
      u.data = before ++ api.version.data ++ after →
      (∀ before2 after2, u.data = before2 ++ api.version.data ++ after2 →
        before.length ≤ before2.length) →
      (jsReplace u api.version "").data = before ++ after := by
    intro u before after heq hmin
    rw [jsReplace_data, replaceFirstChars_first _ _ before after u.data heq hmin]
    simp
  refine ⟨?_, ?_, hfirst, fun u before after heq hmin => hfirst u before _ heq hmin⟩
  · unfold overviewEndpointURLs currentEnvironmentURL
    cases api.isDefaultVersion <;> simp
  · intro u hno
    have h := replaceFirstChars_absent api.version.data ("" : String).data u.data hno
    unfold jsReplace
    rw [h]

theorem C19_witness :
    overviewEndpointURLs
        { isDefaultVersion := true, version := "1.0",
          endpointURLs := [("0", [("https", "https://gw/pets/1.0/list"),
            ("http", "http://gw/pets")])] } =
      [("0", [("https", ["https://gw/pets/1.0/list", "https://gw/pets//list"]),
        ("http", ["http://gw/pets", "http://gw/pets"])])] :=
  (C19_environment_urls_of_default_version
    { isDefaultVersion := true, version := "1.0",
      endpointURLs := [("0", [("https", "https://gw/pets/1.0/list"),
        ("http", "http://gw/pets")])] }).1.trans (by decide)

/-! ## The storefront: documents grouped by type -/

theorem documentTypeKey_markSourceType (doc : JsProps) :
    documentTypeKey (markSourceType doc) = documentTypeKey doc := by
  unfold markSourceType documentTypeKey
  split
  · rw [JsProps.lookup_assign_other _ _ _ _ (by decide)]
  · split
    · rw [JsProps.lookup_assign_other _ _ _ _ (by decide)]
    · split
      · rw [JsProps.lookup_assign_other _ _ _ _ (by decide)]
      · rfl

theorem groupOf_pushToGroup (key : String) (doc : JsProps) :
    ∀ (documentations : List (String × List JsProps)) (k : String),
      groupOf (pushToGroup key doc documentations) k =
        if k = key then groupOf documentations key ++ [doc] else groupOf documentations k
  | [], k => by
    by_cases h : k = key
    · simp [pushToGroup, groupOf, h]
    · simp [pushToGroup, groupOf, h, Ne.symm h]
  | (k0, docs) :: rest, k => by
    have ih := groupOf_pushToGroup key doc rest k
    by_cases h0 : k0 = key
    · subst h0
      by_cases h : k = k0
      · simp [pushToGroup, groupOf, h]
      · simp [pushToGroup, groupOf, h, Ne.symm h]
    · by_cases h : k0 = k
      · subst h
        simp [pushToGroup, groupOf, h0]
      · simp [pushToGroup, groupOf, h0, h, ih]

theorem keys_pushToGroup (key : String) (doc : JsProps) :
    ∀ documentations : List (String × List JsProps),
      (pushToGroup key doc documentations).map Prod.fst =
        if key ∈ documentations.map Prod.fst then documentations.map Prod.fst
        else documentations.map Prod.fst ++ [key]
  | [] => by simp [pushToGroup]
  | (k0, docs) :: rest => by
    have ih := keys_pushToGroup key doc rest
    by_cases h0 : k0 = key
    · simp [pushToGroup, h0]
    · by_cases hm : key ∈ rest.map Prod.fst
      · simp only [pushToGroup, h0, if_false, List.map_cons, ih, hm, if_true, List.mem_cons,
          or_true]
      · simp only [pushToGroup, h0, if_false, List.map_cons, ih, hm, List.mem_cons,
          Ne.symm h0, or_self, List.cons_append]

theorem groupOf_of_mem : ∀ (documentations : List (String × List JsProps))
    (g : String × List JsProps), (documentations.map Prod.fst).Nodup → g ∈ documentations →
    groupOf documentations g.1 = g.2
  | [], g, _, hmem => by simp at hmem
  | (k0, docs) :: rest, g, hnd, hmem => by
    rw [List.map_cons, List.nodup_cons] at hnd
    rcases List.mem_cons.1 hmem with h | h
    · subst h
      simp [groupOf]
    · have hg : g.1 ∈ rest.map Prod.fst := List.mem_map_of_mem Prod.fst h
      have hne : k0 ≠ g.1 := by
        intro heq
        apply hnd.1
        rw [heq]
        exact hg
      simp [groupOf, hne, groupOf_of_mem rest g hnd.2 h]

theorem groupsMatch_push (processed : List JsProps) (doc : JsProps)
    (documentations : List (String × List JsProps)) (h : groupsMatch processed documentations) :
    groupsMatch (processed ++ [doc])
      (pushToGroup (documentTypeKey (markSourceType doc)) (markSourceType doc) documentations) := by
  obtain ⟨hnd, hgroups, hnonempty⟩ := h
  refine ⟨?_, ?_, ?_⟩
  · rw [keys_pushToGroup]
    split
    · exact hnd
    · rename_i hm
      rw [List.nodup_append]
      exact ⟨hnd, List.nodup_singleton _, by
        intro a ha hb
        rw [List.mem_singleton] at hb
        subst hb
        exact hm ha⟩
  · intro key
    rw [groupOf_pushToGroup, List.map_append, List.filter_append]
    by_cases hk : key = documentTypeKey (markSourceType doc)
    · subst hk
      simp [hgroups]
    · simp [hk, hgroups, Ne.symm hk]
  · intro key _
    rw [groupOf_pushToGroup]
    by_cases hk : key = documentTypeKey (markSourceType doc)
    · simp [hk]
    · simp only [hk, if_false]
      rename_i hmem
      rw [keys_pushToGroup] at hmem
      split at hmem
      · exact hnonempty key hmem
      · rcases List.mem_append.1 hmem with h1 | h1
        · exact hnonempty key h1
        · exact absurd (List.mem_singleton.1 h1) hk

theorem documentationsLoop_groupsMatch :
    ∀ (rest processed : List JsProps) (documentations : List (String × List JsProps)),
      groupsMatch processed documentations →
      (∀ doc ∈ rest, documentTypeKey doc ∉ objectPrototypeNames) →
      ∃ result, documentationsLoop rest documentations = .ok result ∧
        groupsMatch (processed ++ rest) result
  | [], processed, documentations, h, _ => by
    exact ⟨documentations, rfl, by simpa using h⟩
  | doc :: rest, processed, documentations, h, hkeys => by
    have hk : documentTypeKey (markSourceType doc) ∉ objectPrototypeNames := by
      rw [documentTypeKey_markSourceType]
      exact hkeys doc (List.mem_cons_self _ _)
    obtain ⟨result, h1, h2⟩ := documentationsLoop_groupsMatch rest (processed ++ [doc]) _
      (groupsMatch_push processed doc documentations h)
      (fun d hd => hkeys d (List.mem_cons_of_mem _ hd))
    refine ⟨result, ?_, by simpa using h2⟩
    simp only [documentationsLoop, hk, and_false, if_false]
    exact h1

theorem exists_group_of_groupOf_ne_nil : ∀ (documentations : List (String × List JsProps))
    (key : String), groupOf documentations key ≠ [] →
    ∃ g ∈ documentations, g.1 = key ∧ g.2 = groupOf documentations key
  | [], key, h => by simp [groupOf] at h
  | (k0, docs) :: rest, key, h => by
    by_cases h0 : k0 = key
    · exact ⟨(k0, docs), List.mem_cons_self _ _, h0, by simp [groupOf, h0]⟩
    · simp only [groupOf, h0, if_false] at h
      obtain ⟨g, hg, h1, h2⟩ := exists_group_of_groupOf_ne_nil rest key h
      exact ⟨g, List.mem_cons_of_mem _ hg, h1, by simp [groupOf, h0, h2]⟩

/-- C20, as the code has it: for a returned list none of whose documents has a type
naming a member of `Object.prototype`, the callback returns a grouping with distinct
keys in which each group is not empty and is the list of the documents of its type
in their original order (each with its source-type flag set); every document is in
the group keyed by its type and in no other; for a returned list that is null the
grouping is empty. -/
theorem C20_documents_grouped_by_type (documentationList : List JsProps)
    (hkeys : ∀ doc ∈ documentationList, documentTypeKey doc ∉ objectPrototypeNames) :
    groupDocuments none = .ok [] ∧
    ∃ documentations, groupDocuments (some documentationList) = .ok documentations ∧
      (documentations.map Prod.fst).Nodup ∧
      (∀ g ∈ documentations, g.2 ≠ [] ∧
        g.2 = (documentationList.map markSourceType).filter
          (fun d => documentTypeKey d = g.1)) ∧
      (∀ doc ∈ documentationList, ∃ g ∈ documentations,
        g.1 = documentTypeKey doc ∧ markSourceType doc ∈ g.2) ∧
      (∀ g1 ∈ documentations, ∀ g2 ∈ documentations, ∀ d, d ∈ g1.2 → d ∈ g2.2 → g1 = g2) := by
  refine ⟨rfl, ?_⟩
  obtain ⟨result, hres, hnd, hgroups, hnonempty⟩ :=
    documentationsLoop_groupsMatch documentationList [] []
      ⟨by simp, by simp [groupOf], by simp⟩ hkeys
  rw [List.nil_append] at hgroups
  have hgroup : ∀ g ∈ result, g.2 =
      (documentationList.map markSourceType).filter (fun d => documentTypeKey d = g.1) := by
    intro g hg
    rw [← groupOf_of_mem result g hnd hg, hgroups]
  refine ⟨result, hres, hnd, ?_, ?_, ?_⟩
  · intro g hg
    refine ⟨?_, hgroup g hg⟩
    rw [← groupOf_of_mem result g hnd hg]
    exact hnonempty g.1 (List.mem_map_of_mem Prod.fst hg)
  · intro doc hdoc
    have hmem : markSourceType doc ∈ groupOf result (documentTypeKey doc) := by
      rw [hgroups, List.mem_filter]
      exact ⟨List.mem_map_of_mem markSourceType hdoc,
        by simp [documentTypeKey_markSourceType]⟩
    obtain ⟨g, hg, h1, h2⟩ := exists_group_of_groupOf_ne_nil result (documentTypeKey doc)
      (List.ne_nil_of_mem hmem)
    exact ⟨g, hg, h1, by rw [h2]; exact hmem⟩
  · intro g1 hg1 g2 hg2 d hd1 hd2
    rw [hgroup g1 hg1, List.mem_filter] at hd1
    rw [hgroup g2 hg2, List.mem_filter] at hd2
    have hk : g1.1 = g2.1 := by
      have e1 : documentTypeKey d = g1.1 := by simpa using hd1.2
      have e2 : documentTypeKey d = g2.1 := by simpa using hd2.2
      rw [← e1, ← e2]
    have hv : g1.2 = g2.2 := by
      rw [hgroup g1 hg1, hgroup g2 hg2, hk]
    exact Prod.ext hk hv

theorem C20_witness :
    groupDocuments (some sampleDocuments) = .ok
      [("HOWTO",
          [.cons "name" (.str "Getting started") (.cons "type" (.str "HOWTO")
              (.cons "sourceType" (.str "INLINE") (.cons "isInLine" (.bool true) .nil))),
           .cons "name" (.str "Throttling") (.cons "type" (.str "HOWTO")
              (.cons "sourceType" (.str "FILE") (.cons "isFile" (.bool true) .nil)))]),
       ("SAMPLES",
          [.cons "name" (.str "Client code") (.cons "type" (.str "SAMPLES")
              (.cons "sourceType" (.str "URL") (.cons "isURL" (.bool true) .nil)))])] ∧
    ∃ documentations, groupDocuments (some sampleDocuments) = .ok documentations ∧
      (documentations.map Prod.fst).Nodup ∧
      (∀ g ∈ documentations, g.2 ≠ [] ∧
        g.2 = (sampleDocuments.map markSourceType).filter
          (fun d => documentTypeKey d = g.1)) ∧
      (∀ doc ∈ sampleDocuments, ∃ g ∈ documentations,
        g.1 = documentTypeKey doc ∧ markSourceType doc ∈ g.2) ∧
      (∀ g1 ∈ documentations, ∀ g2 ∈ documentations, ∀ d, d ∈ g1.2 → d ∈ g2.2 → g1 = g2) :=
  ⟨by rfl, (C20_documents_grouped_by_type sampleDocuments (by decide)).2⟩

/-- C20, as stated, fails: for a returned list with a document of type
"constructor" the callback throws and builds no grouping. -/
theorem C20_prototype_named_type_throws :
    groupDocuments (some constructorDocuments) = .error .typeError ∧
    ¬ ∃ documentations, groupDocuments (some constructorDocuments) = .ok documentations := by
  have h : groupDocuments (some constructorDocuments) = .error .typeError := by rfl
  refine ⟨h, ?_⟩
  rintro ⟨documentations, hd⟩
  rw [h] at hd
  exact absurd hd (by simp)

/-! ## The storefront: failures of the fetches -/

/-- C15: a failure of the API detail, application list or subscription list fetch
shows one alert and, exactly when the status is 401, redirects to the login page;
the documents fetch is called without a failure callback, so its failure shows no
alert and redirects nowhere, also with status 401. -/
theorem C15_documents_failure_unhandled (apiId contextPath : String) (error : FetchError) :
    (∀ fetch, fetch ≠ PageFetch.documents →
      ∃ message, onFetchFailure apiId contextPath fetch error =
        if error.status = 401 then
          [PageEffect.alert message, PageEffect.redirectToLogin contextPath]
        else [PageEffect.alert message]) ∧
    failureCallback apiId contextPath .documents = none ∧
    onFetchFailure apiId contextPath .documents error = [] ∧
    onFetchFailure apiId contextPath .documents { status := 401, text := error.text } = [] := by
  refine ⟨?_, rfl, rfl, rfl⟩
  intro fetch hne
  cases fetch with
  | apiDetail =>
    refine ⟨"Error occurred while retrieve api with id  : " ++ apiId, ?_⟩
    by_cases h : error.status = 401 <;> simp [onFetchFailure, failureCallback, h]
  | applications =>
    refine ⟨"Error occurred while retrieve Applications" ++ error.text, ?_⟩
    by_cases h : error.status = 401 <;> simp [onFetchFailure, failureCallback, h]
  | subscriptions =>
    refine ⟨"Error occurred while retrieve Applications" ++ error.text, ?_⟩
    by_cases h : error.status = 401 <;> simp [onFetchFailure, failureCallback, h]
  | documents => exact absurd rfl hne

/-! ## Objects with identity: what the reducer writes -/

theorem RefValue.freshFor_mono (v : RefValue) (m n : Nat) (hmn : m ≤ n)
    (h : v.freshFor n) : v.freshFor m := by
  cases v <;> simp only [RefValue.freshFor] at h ⊢
  exact Nat.le_trans hmn h

theorem refLookup_fresh (size : Nat) : ∀ (props : List (String × RefValue)) (key : String),
    (∀ kv ∈ props, RefValue.freshFor size kv.2) → (refLookup props key).freshFor size
  | [], key, _ => by simp [refLookup, RefValue.freshFor]
  | (k, v) :: rest, key, h => by
    by_cases hk : k = key
    · simpa [refLookup, hk] using h (k, v) (List.mem_cons_self _ _)
    · simpa [refLookup, hk] using
        refLookup_fresh size rest key (fun kv hkv => h kv (List.mem_cons_of_mem _ hkv))

theorem refAssign_fresh (size : Nat) (key : String) (val : RefValue)
    (hval : val.freshFor size) : ∀ props : List (String × RefValue),
    (∀ kv ∈ props, RefValue.freshFor size kv.2) →
    ∀ kv ∈ refAssign props key val, RefValue.freshFor size kv.2
  | [], _, kv, hkv => by
    simp only [refAssign, List.mem_singleton] at hkv
    rw [hkv]
    exact hval
  | (k, v) :: rest, h, kv, hkv => by
    by_cases hk : k = key
    · simp only [refAssign, hk, if_true, List.mem_cons] at hkv
      rcases hkv with h1 | h1
      · rw [h1]
        exact hval
      · exact h kv (List.mem_cons_of_mem _ h1)
    · simp only [refAssign, hk, if_false, List.mem_cons] at hkv
      rcases hkv with h1 | h1
      · rw [h1]
        exact h (k, v) (List.mem_cons_self _ _)
      · exact refAssign_fresh size key val hval rest
          (fun kv2 hkv2 => h kv2 (List.mem_cons_of_mem _ hkv2)) kv h1

theorem cloneProps_fresh (clone : ObjectStore → RefValue → Option (ObjectStore × RefValue))
    (hclone : ClonesFresh clone) :
    ∀ (props : List (String × RefValue)) (store store2 : ObjectStore)
      (props2 : List (String × RefValue)),
      ObjectStore.cloneProps clone store props = some (store2, props2) →
      ∃ ext, store2 = store ++ ext ∧ (∀ kv ∈ props2, RefValue.freshFor store.length kv.2) ∧
        ∀ p ∈ ext, ∀ kv ∈ p, RefValue.freshFor store.length kv.2
  | [], store, store2, props2, h => by
    simp only [ObjectStore.cloneProps, Option.some.injEq, Prod.mk.injEq] at h
    obtain ⟨h1, h2⟩ := h
    subst h1 h2
    exact ⟨[], by simp, by simp, by simp⟩
  | (key, value) :: rest, store, store2, props2, h => by
    simp only [ObjectStore.cloneProps] at h
    cases hc : clone store value with
    | none => simp [hc] at h
    | some r1 =>
      obtain ⟨store1, value1⟩ := r1
      simp only [hc] at h
      cases hr : ObjectStore.cloneProps clone store1 rest with
      | none => simp [hr] at h
      | some r2 =>
        obtain ⟨store3, rest1⟩ := r2
        simp only [hr, Option.some.injEq, Prod.mk.injEq] at h
        obtain ⟨h1, h2⟩ := h
        subst h1 h2
        obtain ⟨e1, he1, hv1, hcells1⟩ := hclone store value store1 value1 hc
        obtain ⟨e2, he2, hv2, hcells2⟩ := cloneProps_fresh clone hclone rest store1 store3 rest1 hr
        have hlen : store.length ≤ store1.length := by
          rw [he1]
          simp
        refine ⟨e1 ++ e2, by rw [he2, he1, List.append_assoc], ?_, ?_⟩
        · intro kv hkv
          rcases List.mem_cons.1 hkv with h3 | h3
          · rw [h3]
            exact hv1
          · exact RefValue.freshFor_mono _ _ _ hlen (hv2 kv h3)
        · intro p hp kv hkv
          rcases List.mem_append.1 hp with h3 | h3
          · exact hcells1 p h3 kv hkv
          · exact RefValue.freshFor_mono _ _ _ hlen (hcells2 p h3 kv hkv)

theorem cloneDeep_fresh : ∀ fuel : Nat, ClonesFresh (ObjectStore.cloneDeep fuel)
  | 0 => by
    intro store value store2 value2 h
    cases value with
    | ref address => simp [ObjectStore.cloneDeep] at h
    | undefined =>
      simp only [ObjectStore.cloneDeep, Option.some.injEq, Prod.mk.injEq] at h
      obtain ⟨h1, h2⟩ := h
      subst h1 h2
      exact ⟨[], by simp, by simp [RefValue.freshFor], by simp⟩
    | null =>
      simp only [ObjectStore.cloneDeep, Option.some.injEq, Prod.mk.injEq] at h
      obtain ⟨h1, h2⟩ := h
      subst h1 h2
      exact ⟨[], by simp, by simp [RefValue.freshFor], by simp⟩
    | bool b =>
      simp only [ObjectStore.cloneDeep, Option.some.injEq, Prod.mk.injEq] at h
      obtain ⟨h1, h2⟩ := h
      subst h1 h2
      exact ⟨[], by simp, by simp [RefValue.freshFor], by simp⟩
    | num n =>
      simp only [ObjectStore.cloneDeep, Option.some.injEq, Prod.mk.injEq] at h
      obtain ⟨h1, h2⟩ := h
      subst h1 h2
      exact ⟨[], by simp, by simp [RefValue.freshFor], by simp⟩
    | str s =>
      simp only [ObjectStore.cloneDeep, Option.some.injEq, Prod.mk.injEq] at h
      obtain ⟨h1, h2⟩ := h
      subst h1 h2
      exact ⟨[], by simp, by simp [RefValue.freshFor], by simp⟩
  | fuel + 1 => by
    intro store value store2 value2 h
    cases value with
    | ref address =>
      simp only [ObjectStore.cloneDeep] at h
      cases hs : store[address]? with
      | none => simp [hs] at h
      | some props =>
        simp only [hs] at h
        cases hc : ObjectStore.cloneProps (ObjectStore.cloneDeep fuel) store props with
        | none => simp [hc] at h
        | some r =>
          obtain ⟨store1, props1⟩ := r
          simp only [hc, Option.some.injEq, Prod.mk.injEq] at h
          obtain ⟨h1, h2⟩ := h
          subst h1 h2
          obtain ⟨e1, he1, hv1, hcells1⟩ :=
            cloneProps_fresh _ (cloneDeep_fresh fuel) props store store1 props1 hc
          refine ⟨e1 ++ [props1], by rw [he1, List.append_assoc], ?_, ?_⟩
          · simp only [RefValue.freshFor]
            rw [he1]
            simp
          · intro p hp kv hkv
            rcases List.mem_append.1 hp with h3 | h3
            · exact hcells1 p h3 kv hkv
            · rw [List.mem_singleton] at h3
              subst h3
              exact hv1 kv hkv
    | undefined =>
      simp only [ObjectStore.cloneDeep, Option.some.injEq, Prod.mk.injEq] at h
      obtain ⟨h1, h2⟩ := h
      subst h1 h2
      exact ⟨[], by simp, by simp [RefValue.freshFor], by simp⟩
    | null =>
      simp only [ObjectStore.cloneDeep, Option.some.injEq, Prod.mk.injEq] at h
      obtain ⟨h1, h2⟩ := h
      subst h1 h2
      exact ⟨[], by simp, by simp [RefValue.freshFor], by simp⟩
    | bool b =>
      simp only [ObjectStore.cloneDeep, Option.some.injEq, Prod.mk.injEq] at h
      obtain ⟨h1, h2⟩ := h
      subst h1 h2
      exact ⟨[], by simp, by simp [RefValue.freshFor], by simp⟩
    | num n =>
      simp only [ObjectStore.cloneDeep, Option.some.injEq, Prod.mk.injEq] at h
      obtain ⟨h1, h2⟩ := h
      subst h1 h2
      exact ⟨[], by simp, by simp [RefValue.freshFor], by simp⟩
    | str s =>
      simp only [ObjectStore.cloneDeep, Option.some.injEq, Prod.mk.injEq] at h
      obtain ⟨h1, h2⟩ := h
      subst h1 h2
      exact ⟨[], by simp, by simp [RefValue.freshFor], by simp⟩

theorem getElem?_set_of_some {α : Type} (l : List α) (i : Nat) (a b : α)
    (h : l[i]? = some b) : (l.set i a)[i]? = some a := by
  have hlt : i < l.length := by
    by_contra hn
    rw [List.getElem?_eq_none (Nat.le_of_not_lt hn)] at h
    exact absurd h (by simp)
  simp [hlt]

theorem ObjectStore.setProp_some (store store2 : ObjectStore) (target : RefValue)
    (key : String) (val : RefValue) (h : store.setProp target key val = some store2) :
    ∃ address props, target = .ref address ∧ store[address]? = some props ∧
      store2 = store.set address (refAssign props key val) := by
  cases target with
  | ref address =>
    simp only [ObjectStore.setProp, Option.map_eq_some'] at h
    obtain ⟨props, h1, h2⟩ := h
    exact ⟨address, props, rfl, h1, h2.symm⟩
  | undefined => simp [ObjectStore.setProp] at h
  | null => simp [ObjectStore.setProp] at h
  | bool b => simp [ObjectStore.setProp] at h
  | num n => simp [ObjectStore.setProp] at h
  | str s => simp [ObjectStore.setProp] at h

/-- A write to an object at or above `size` leaves the objects below `size` alone. -/
theorem set_above_frame (store : ObjectStore) (size address : Nat)
    (props : List (String × RefValue)) (hle : size ≤ address) :
    ∀ a, a < size → (store.set address props)[a]? = store[a]? := by
  intro a ha
  exact List.getElem?_set_ne (by omega)

/-- In a store grown by a clone, an object at or above the old size has only fresh
property values. -/
theorem appended_cell_fresh (store ext : ObjectStore) (address : Nat)
    (props : List (String × RefValue)) (hle : store.length ≤ address)
    (hget : (store ++ ext)[address]? = some props)
    (hcells : ∀ p ∈ ext, ∀ kv ∈ p, RefValue.freshFor store.length kv.2) :
    ∀ kv ∈ props, RefValue.freshFor store.length kv.2 := by
  rw [List.getElem?_append_right hle] at hget
  exact hcells props (List.getElem?_mem hget)

/-- A fresh value that can be written to is a reference at or above `size`. -/
theorem fresh_ref (size address : Nat) (h : (RefValue.ref address).freshFor size) :
    size ≤ address := h

/-- One run of the reducer only appends objects to the store and writes to objects
it has appended: every object that was in the store before is as it was. -/
theorem ObjectStore.operationReducer_frame (fuel : Nat) (store store2 : ObjectStore)
    (state state2 : RefValue) (a : RefAction)
    (h : ObjectStore.operationReducer fuel store state a = some (store2, state2)) :
    store.length ≤ store2.length ∧
      ∀ address, address < store.length → store2[address]? = store[address]? := by
  unfold ObjectStore.operationReducer at h
  cases hc : ObjectStore.cloneDeep fuel store state with
  | none => simp [hc] at h
  | some r =>
    obtain ⟨store1, next⟩ := r
    obtain ⟨ext, he, hfresh, hcells⟩ := cloneDeep_fresh fuel store state store1 next hc
    have hlen1 : store.length ≤ store1.length := by
      rw [he]
      simp
    have hold : ∀ address, address < store.length → store1[address]? = store[address]? := by
      intro address hlt
      rw [he]
      exact List.getElem?_append_left hlt
    simp only [hc] at h
    split at h
    · simp only [Option.some.injEq, Prod.mk.injEq] at h
      rw [← h.1]
      exact ⟨hlen1, hold⟩
    · split at h
      · -- summary, description
        cases hg : store1.getProp next "spec" with
        | none => simp [hg] at h
        | some spec =>
          simp only [hg] at h
          cases hw : store1.setProp spec a.action a.value with
          | none => simp [hw] at h
          | some store3 =>
            simp only [hw, Option.some.injEq, Prod.mk.injEq] at h
            rw [← h.1]
            obtain ⟨b, sprops, hspec, _, hset⟩ := ObjectStore.setProp_some _ _ _ _ _ hw
            subst hspec
            have hb : store.length ≤ b := by
              cases next with
              | ref address =>
                simp only [ObjectStore.getProp, Option.map_eq_some'] at hg
                obtain ⟨props, hp1, hp2⟩ := hg
                have hprops := appended_cell_fresh store ext address props
                  (fresh_ref _ _ hfresh) (by rw [← he]; exact hp1) hcells
                have := refLookup_fresh store.length props "spec" hprops
                rw [hp2] at this
                exact fresh_ref _ _ this
              | undefined => simp [ObjectStore.getProp] at hg
              | null => simp [ObjectStore.getProp] at hg
              | bool v => simp [ObjectStore.getProp] at hg
              | num v => simp [ObjectStore.getProp] at hg
              | str v => simp [ObjectStore.getProp] at hg
            rw [hset]
            refine ⟨by rw [List.length_set]; exact hlen1, fun address hlt => ?_⟩
            rw [set_above_frame store1 store.length b _ hb address hlt]
            exact hold address hlt
      · split at h
        · -- authType
          cases hw1 : store1.setProp next a.action (refAuthTypeOf a.value) with
          | none => simp [hw1] at h
          | some store3 =>
            simp only [hw1] at h
            obtain ⟨n1, nprops, hnext, hn1, hset1⟩ := ObjectStore.setProp_some _ _ _ _ _ hw1
            subst hnext
            have hn : store.length ≤ n1 := fresh_ref _ _ hfresh
            have hnprops := appended_cell_fresh store ext n1 nprops hn
              (by rw [← he]; exact hn1) hcells
            cases hg : store3.getProp (.ref n1) "spec" with
            | none => simp [hg] at h
            | some spec =>
              simp only [hg] at h
              cases hw2 : store3.setProp spec "x-auth-type" (refAuthTypeOf a.value) with
              | none => simp [hw2] at h
              | some store4 =>
                simp only [hw2, Option.some.injEq, Prod.mk.injEq] at h
                rw [← h.1]
                obtain ⟨b, sprops, hspec, _, hset2⟩ := ObjectStore.setProp_some _ _ _ _ _ hw2
                subst hspec
                have hval : (refAuthTypeOf a.value).freshFor store.length := by
                  unfold refAuthTypeOf
                  split <;> simp [RefValue.freshFor]
                have hb : store.length ≤ b := by
                  simp only [ObjectStore.getProp, Option.map_eq_some'] at hg
                  obtain ⟨props, hp1, hp2⟩ := hg
                  rw [hset1, getElem?_set_of_some store1 n1 _ nprops hn1] at hp1
                  simp only [Option.some.injEq] at hp1
                  have hprops := refAssign_fresh store.length a.action _ hval nprops hnprops
                  rw [hp1] at hprops
                  have := refLookup_fresh store.length props "spec" hprops
                  rw [hp2] at this
                  exact fresh_ref _ _ this
                rw [hset2, hset1]
                refine ⟨by rw [List.length_set, List.length_set]; exact hlen1,
                  fun address hlt => ?_⟩
                rw [set_above_frame _ store.length b _ hb address hlt,
                  set_above_frame store1 store.length n1 _ hn address hlt]
                exact hold address hlt
        · simp only [Option.some.injEq, Prod.mk.injEq] at h
          rw [← h.1]
          exact ⟨hlen1, hold⟩

theorem ObjectStore.dispatchAll_frame (fuel : Nat) :
    ∀ (actions : List RefAction) (store store2 : ObjectStore) (state state2 : RefValue),
      ObjectStore.dispatchAll fuel store state actions = some (store2, state2) →
      store.length ≤ store2.length ∧
        ∀ address, address < store.length → store2[address]? = store[address]?
  | [], store, store2, state, state2, h => by
    simp only [ObjectStore.dispatchAll, Option.some.injEq, Prod.mk.injEq] at h
    rw [← h.1]
    exact ⟨Nat.le_refl _, fun _ _ => rfl⟩
  | a :: rest, store, store2, state, state2, h => by
    simp only [ObjectStore.dispatchAll] at h
    cases hr : ObjectStore.operationReducer fuel store state a with
    | none => simp [hr] at h
    | some r =>
      obtain ⟨store1, next⟩ := r
      simp only [hr] at h
      obtain ⟨hlen1, hold1⟩ := ObjectStore.operationReducer_frame fuel store store1 state next a hr
      obtain ⟨hlen2, hold2⟩ := ObjectStore.dispatchAll_frame fuel rest store1 store2 next state2 h
      exact ⟨Nat.le_trans hlen1 hlen2, fun address hlt => by
        rw [hold2 address (Nat.lt_of_lt_of_le hlt hlen1), hold1 address hlt]⟩

theorem ObjectStore.update_returns_value (fuel : Nat) (store store2 : ObjectStore)
    (state state2 value : RefValue)
    (h : ObjectStore.operationReducer fuel store state ⟨"update", value⟩ =
      some (store2, state2)) : state2 = value := by
  unfold ObjectStore.operationReducer at h
  cases hc : ObjectStore.cloneDeep fuel store state with
  | none => simp [hc] at h
  | some r =>
    simp only [hc, if_true, Option.some.injEq, Prod.mk.injEq] at h
    exact h.2.symm

/-- C12, as the code has it: whatever the component does after it mounted on an
operation of the caller's store (update, summary, description and authType actions
in any order), every object that was in the store before is as it was, so the
fields of the caller's operation and of its nested spec are unchanged.  The initial
reducer state is a clone no part of which is an object of the caller, and an
update action makes the supplied value itself the state. -/
theorem C12_callers_objects_never_written (fuel : Nat) (store store2 : ObjectStore)
    (initOperation state2 : RefValue) (actions : List RefAction)
    (h : ObjectStore.mountAndDispatch fuel store initOperation actions =
      some (store2, state2)) :
    store.length ≤ store2.length ∧
    (∀ address, address < store.length → store2[address]? = store[address]?) ∧
    (∀ store1 state, ObjectStore.cloneDeep fuel store initOperation = some (store1, state) →
      state.freshFor store.length) ∧
    (∀ (s1 s2 : ObjectStore) (state stateAfter value : RefValue),
      ObjectStore.operationReducer fuel s1 state ⟨"update", value⟩ = some (s2, stateAfter) →
      stateAfter = value) := by
  unfold ObjectStore.mountAndDispatch at h
  cases hc : ObjectStore.cloneDeep fuel store initOperation with
  | none => simp [hc] at h
  | some r =>
    obtain ⟨store1, state⟩ := r
    simp only [hc] at h
    obtain ⟨ext, he, hfresh, _⟩ := cloneDeep_fresh fuel store initOperation store1 state hc
    obtain ⟨hlen, hold⟩ := ObjectStore.dispatchAll_frame fuel actions store1 store2 state state2 h
    have hlen1 : store.length ≤ store1.length := by
      rw [he]
      simp
    refine ⟨Nat.le_trans hlen1 hlen, ?_, ?_, ?_⟩
    · intro address hlt
      rw [hold address (Nat.lt_of_lt_of_le hlt hlen1), he]
      exact List.getElem?_append_left hlt
    · intro s1 st1 h1
      simp only [Option.some.injEq, Prod.mk.injEq] at h1
      rw [← h1.2]
      exact hfresh
    · intro s1 s2 st stAfter value hu
      exact ObjectStore.update_returns_value fuel s1 s2 st stAfter value hu

theorem C12_witness :
    ObjectStore.mountAndDispatch 2 petsStore (.ref 0)
        [⟨"update", .ref 0⟩, ⟨"summary", .str "List pets"⟩] =
      some (petsStoreEdited, .ref 7) ∧
    petsStore.length ≤ petsStoreEdited.length ∧
    (∀ address, address < petsStore.length →
      petsStoreEdited[address]? = petsStore[address]?) :=
  ⟨by decide,
   (C12_callers_objects_never_written 2 petsStore petsStoreEdited (.ref 0) (.ref 7)
      [⟨"update", .ref 0⟩, ⟨"summary", .str "List pets"⟩] (by decide)).1,
   (C12_callers_objects_never_written 2 petsStore petsStoreEdited (.ref 0) (.ref 7)
      [⟨"update", .ref 0⟩, ⟨"summary", .str "List pets"⟩] (by decide)).2.1⟩

/-- C12, as stated, fails: after the mount on the caller's operation (address 0) and
the update action that accepts it, the state of the reducer is the reference to the
caller's own object, not to a clone. -/
theorem C12_update_state_is_callers_object :
    (∃ store2, ObjectStore.mountAndDispatch 2 petsStore (.ref 0) [⟨"update", .ref 0⟩] =
      some (store2, .ref 0)) ∧
    ¬ (RefValue.ref 0).freshFor petsStore.length ∧
    ¬ (∀ (fuel : Nat) (store store2 : ObjectStore) (state state2 value : RefValue),
        ObjectStore.operationReducer fuel store state ⟨"update", value⟩ =
          some (store2, state2) → state2.freshFor store.length) := by
  have hnot : ¬ (RefValue.ref 0).freshFor petsStore.length := by
    simp [RefValue.freshFor, petsStore]
  refine ⟨⟨petsStoreEdited.take 6, by decide⟩, hnot, fun hall => ?_⟩
  have h := hall 2 petsStore (petsStore ++ [[("summary", .str ""), ("description", .str "")],
      [("verb", .str "GET"), ("target", .str "/pets"), ("authType", .str "None"),
        ("spec", .ref 2)]]) (.ref 0) (.ref 0) (.ref 0) (by decide)
  exact hnot h

/-! ## The storefront: classes of the tabs -/

theorem assignAt_length : ∀ (tabs : List JsProps) (index : Nat) (key : String) (value : JsValue),
    (assignAt tabs index key value).length = tabs.length
  | [], _, _, _ => rfl
  | _ :: _, 0, _, _ => rfl
  | _ :: rest, index + 1, key, value => by
    simp [assignAt, assignAt_length rest index key value]

theorem assignAt_getElem? : ∀ (tabs : List JsProps) (index j : Nat) (key : String)
    (value : JsValue),
    (assignAt tabs index key value)[j]? =
      if j = index then (tabs[j]?).map (fun tab => tab.assign key value) else tabs[j]?
  | [], index, j, key, value => by simp [assignAt]
  | tab :: rest, 0, j, key, value => by
    cases j with
    | zero => simp [assignAt]
    | succ j => simp [assignAt]
  | tab :: rest, index + 1, j, key, value => by
    cases j with
    | zero => simp [assignAt]
    | succ j => simp [assignAt, assignAt_getElem? rest index j key value]

/-- The iterations after the first: nothing happens before the last index, and the
last index gets `tabclass`. -/
theorem tabClassLoop_after_first : ∀ (remaining i : Nat) (tabs : List JsProps),
    0 < i → i + remaining = tabs.length →
    tabClassLoop remaining i tabs =
      if remaining = 0 then tabs else assignAt tabs (tabs.length - 1) "tabclass" (.str "last")
  | 0, _, _, _, _ => by simp [tabClassLoop]
  | remaining + 1, i, tabs, hi, hlen => by
    have hi0 : i ≠ 0 := Nat.pos_iff_ne_zero.1 hi
    simp only [tabClassLoop, hi0, if_false, Nat.succ_ne_zero]
    by_cases hlast : i = tabs.length - 1
    · have hrem : remaining = 0 := by omega
      subst hrem
      simp [hlast, tabClassLoop]
    · have hrem : remaining ≠ 0 := by omega
      simp only [hlast, if_false]
      rw [tabClassLoop_after_first remaining (i + 1) tabs (Nat.succ_pos _) (by omega)]
      simp [hrem]

/-- The tab list after the loop, in closed form. -/
theorem assignTabClasses_eq (tabs : List JsProps) (hn : 1 ≤ tabs.length) :
    assignTabClasses tabs =
      if tabs.length = 1 then
        assignAt (assignAt tabs 0 "tabClass" (.str "first active")) 0 "contentClass"
          (.str "in active")
      else
        assignAt
          (assignAt (assignAt tabs 0 "tabClass" (.str "first active")) 0 "contentClass"
            (.str "in active"))
          (tabs.length - 1) "tabclass" (.str "last") := by
  unfold assignTabClasses
  obtain ⟨n, hn2⟩ : ∃ n, tabs.length = n + 1 := ⟨tabs.length - 1, by omega⟩
  rw [hn2]
  simp only [tabClassLoop, if_true]
  rw [tabClassLoop_after_first n 1 _ (by decide)
    (by simp [assignAt_length, hn2]; omega)]
  simp only [assignAt_length, hn2]
  by_cases h0 : n = 0
  · simp [h0]
  · simp [h0]

theorem detailTabs_condition (isAPIConsoleEnabled : Bool) (apiTypeUpper : String)
    (isForumEnabled : Bool) :
    detailTabs isAPIConsoleEnabled apiTypeUpper isForumEnabled =
      detailTabs (isAPIConsoleEnabled && apiTypeUpper != "WS") "REST" isForumEnabled := by
  unfold detailTabs
  cases h : (isAPIConsoleEnabled && apiTypeUpper != "WS") <;> simp

/-- In every tab list the callback can build, no tab after the first has a
`tabClass` or a `contentClass` when the loop is done. -/
theorem detailTabs_other_tabs_unmarked (isAPIConsoleEnabled : Bool) (apiTypeUpper : String)
    (isForumEnabled : Bool) :
    ∀ tab ∈ (assignTabClasses
        (detailTabs isAPIConsoleEnabled apiTypeUpper isForumEnabled)).drop 1,
      JsProps.has tab "tabClass" = false ∧ JsProps.has tab "contentClass" = false := by
  rw [detailTabs_condition]
  cases (isAPIConsoleEnabled && apiTypeUpper != "WS") <;> cases isForumEnabled <;> decide

/-- C21: after the loop over a tab list of at least one tab, the list has the same
length; the first tab is the original one with `tabClass` "first active" and
`contentClass` "in active" written to it and nothing else; the tabs strictly between
the first and the last are untouched; for two or more tabs the last tab is the
original one with "last" written under the key `tabclass` (lower-case c), so that
on every tab but the first `tabClass` and `contentClass` are as they were before
the loop, and in the tab lists the callback builds no tab but the first has them. -/
theorem C21_tab_classes_first_and_last (tabs : List JsProps) (hn : 1 ≤ tabs.length) :
    (assignTabClasses tabs).length = tabs.length ∧
    (assignTabClasses tabs)[0]? = (tabs[0]?).map (fun tab =>
      (tab.assign "tabClass" (.str "first active")).assign "contentClass" (.str "in active")) ∧
    (∀ i, 0 < i → i < tabs.length - 1 → (assignTabClasses tabs)[i]? = tabs[i]?) ∧
    (2 ≤ tabs.length →
      (assignTabClasses tabs)[tabs.length - 1]? =
        (tabs[tabs.length - 1]?).map (fun tab => tab.assign "tabclass" (.str "last"))) ∧
    (∀ i tab result, 0 < i → tabs[i]? = some tab → (assignTabClasses tabs)[i]? = some result →
      result.has "tabClass" = tab.has "tabClass" ∧
      result.has "contentClass" = tab.has "contentClass" ∧
      result.lookup "tabClass" = tab.lookup "tabClass" ∧
      result.lookup "contentClass" = tab.lookup "contentClass") ∧
    (∀ (isAPIConsoleEnabled : Bool) (apiTypeUpper : String) (isForumEnabled : Bool),
      ∀ tab ∈ (assignTabClasses
          (detailTabs isAPIConsoleEnabled apiTypeUpper isForumEnabled)).drop 1,
        JsProps.has tab "tabClass" = false ∧ JsProps.has tab "contentClass" = false) := by
  have hclosed := assignTabClasses_eq tabs hn
  have hget : ∀ i, (assignTabClasses tabs)[i]? =
      if i = 0 then (tabs[i]?).map (fun tab =>
        (tab.assign "tabClass" (.str "first active")).assign "contentClass" (.str "in active"))
      else if i = tabs.length - 1 then
        (tabs[i]?).map (fun tab => tab.assign "tabclass" (.str "last"))
      else tabs[i]? := by
    intro i
    rw [hclosed]
    by_cases h1 : tabs.length = 1
    · simp only [h1, if_true, assignAt_getElem?]
      by_cases hi : i = 0
      · subst hi
        cases tabs[0]? <;> simp
      · have hnone : tabs[i]? = none := List.getElem?_eq_none (by omega)
        simp [hi, hnone]
    · simp only [h1, if_false, assignAt_getElem?]
      by_cases hi : i = 0
      · have hnl : ¬ (0 = tabs.length - 1) := by omega
        subst hi
        cases tabs[0]? <;> simp [hnl]
      · simp [hi]
  refine ⟨?_, ?_, ?_, ?_, ?_, detailTabs_other_tabs_unmarked⟩
  · rw [hclosed]
    split <;> simp [assignAt_length]
  · rw [hget 0]
    simp
  · intro i h0 hlt
    rw [hget i]
    simp [Nat.pos_iff_ne_zero.1 h0, Nat.ne_of_lt hlt]
  · intro h2
    rw [hget (tabs.length - 1)]
    have : tabs.length - 1 ≠ 0 := by omega
    simp [this]
  · intro i tab result h0 htab hres
    rw [hget i, htab] at hres
    simp only [Nat.pos_iff_ne_zero.1 h0, if_false, Option.map_some'] at hres
    split at hres
    · simp only [Option.some.injEq] at hres
      subst hres
      refine ⟨?_, ?_, ?_, ?_⟩
      · simp [JsProps.has_assign]
      · simp [JsProps.has_assign]
      · exact JsProps.lookup_assign_other _ _ _ _ (by decide)
      · exact JsProps.lookup_assign_other _ _ _ _ (by decide)
    · simp only [Option.some.injEq] at hres
      subst hres
      exact ⟨rfl, rfl, rfl, rfl⟩

theorem C21_witness :
    pageTabs.length = 4 ∧
    (pageTabs.map fun tab => (tab.lookup "id", tab.lookup "tabClass", tab.lookup "contentClass",
        tab.lookup "tabclass")) =
      [(.str "api-overview", .str "first active", .str "in active", .undefined),
       (.str "api-documentation", .undefined, .undefined, .undefined),
       (.str "api-swagger", .undefined, .undefined, .undefined),
       (.str "forum-list", .undefined, .undefined, .str "last")] ∧
    (pageTabs.map fun tab => (tab.has "tabClass", tab.has "contentClass", tab.has "tabclass")) =
      [(true, true, false), (false, false, false), (false, false, false),
       (false, false, true)] ∧
    (assignTabClasses (detailTabs false "REST" false)).length = 2 ∧
    assignTabClasses [JsProps.cons "id" (.str "api-overview") .nil] =
      [.cons "id" (.str "api-overview") (.cons "tabClass" (.str "first active")
        (.cons "contentClass" (.str "in active") .nil))] :=
  ⟨(C21_tab_classes_first_and_last (detailTabs true "REST" true) (by decide)).1.trans
      (by decide),
   by decide, by decide,
   (C21_tab_classes_first_and_last (detailTabs false "REST" false) (by decide)).1.trans
      (by decide),
   by decide⟩
